import Mathlib

/-!
hypr-control: the external configuration synchronisation contract.

A shallow embedding of `src/main.cpp`: the option reader and its typed
accessors, the layout lookup table, the handlers that keep the selected
keyboard layouts in step with the compositor, the layout-switch key binding
(load, apply, remove), the change handlers of the combo rows and of the float
switch, and what the page constructors read back.

Conventions of the embedding.

* A `std::string` (and a NUL-terminated `const char *`) is the list of its
  `char`s, `Str`.  Every character the program inspects is ASCII.
* The outside world is read through `popen` only.  It is a parameter
  `Popen`: the text a command line writes to its standard output, or `none`
  when the pipe cannot be opened.
* `std::system` and the calls into the widget toolkit have no result the
  program looks at; they are appended, in program order, to the `trace` of the
  state.
-/

namespace HyprControl

/-- A `std::string`: the sequence of its characters. -/
abbrev Str := List Char

/-- What `popen(cmd, "r")` gives for a command line: `none` when the pipe
cannot be opened, otherwise the text the `fgets` loop of `exec_output`
collects from the process (text without NUL characters). -/
abbrev Popen := Str → Option Str

/-! ## Standard-library pieces used by the program -/

/-- Model of `std::getline(stream, line, delim)` on the unread rest of a
string stream.  It fails when no character can be extracted; otherwise it
gives the characters before the first delimiter and the rest after that
delimiter (the delimiter is extracted and dropped). -/
def getline (delim : Char) (rest : Str) : Option (Str × Str) :=
  if rest = [] then none
  else some (rest.takeWhile (fun c => c != delim),
             (rest.dropWhile (fun c => c != delim)).drop 1)

/-- Model of `std::string::find(char)`: the position of the first occurrence,
`none` for `npos`. -/
def find_char (s : Str) (c : Char) : Option Nat :=
  if s.indexOf c < s.length then some (s.indexOf c) else none

/-- Model of `isspace` in the C locale. -/
def isspace (c : Char) : Bool :=
  c == ' ' || c == '\t' || c == '\n' || c == '\x0b' || c == '\x0c' || c == '\r'

/-- Value of a run of decimal digits, most significant first. -/
def digits_value (ds : Str) : Nat :=
  ds.foldl (fun acc c => 10 * acc + (c.toNat - '0'.toNat)) 0

/-- Model of `std::stoi(s)` (base 10): leading white space is skipped, one
optional sign is read, then the longest run of decimal digits; whatever
follows is ignored.  `none` stands for a thrown exception:
`std::invalid_argument` when there is no digit, `std::out_of_range` when the
value does not fit a 32-bit `int`. -/
def stoi (s : Str) : Option Int :=
  let s1 := s.dropWhile isspace
  let signed : Bool × Str :=
    match s1 with
    | '-' :: r => (true, r)
    | '+' :: r => (false, r)
    | _ => (false, s1)
  let ds := signed.2.takeWhile Char.isDigit
  if ds = [] then none
  else
    let v : Int := if signed.1 then -(digits_value ds : Int) else (digits_value ds : Int)
    if -2147483648 ≤ v ∧ v ≤ 2147483647 then some v else none

/-! ## Option reader (`main.cpp` lines 13-76) -/

/-- The function `exec_output`: the whole output of the command with every
trailing `'\n'` and `'\r'` popped; empty when the pipe cannot be opened. -/
def exec_output (popen : Popen) (cmd : Str) : Str :=
  match popen cmd with
  | none => []
  | some result => result.rdropWhile (fun c => c == '\n' || c == '\r')

/-- The function `get_hyprland_option`. -/
def get_hyprland_option (popen : Popen) (option : Str) : Str :=
  let cmd := "hyprctl getoption ".toList ++ option
  let output := exec_output popen cmd
  if output = [] then []
  else
    match getline '\n' output with
    | none => []
    | some (line, _) =>
      match find_char line ':' with
      | some colon_pos =>
        if colon_pos + 2 < line.length then line.drop (colon_pos + 2) else []
      | none => []

/-- The function `get_float_option`.  The type `D` stands for `double` and
`stod` for `std::stod`, with `none` for a thrown exception; the function only
passes their values on. -/
def get_float_option {D : Type} (stod : Str → Option D) (popen : Popen)
    (option : Str) (def_val : D) : D :=
  let s := get_hyprland_option popen option
  if s = [] then def_val
  else
    match stod s with
    | some v => v
    | none => def_val

/-- The function `get_int_option`. -/
def get_int_option (popen : Popen) (option : Str) (def_val : Int) : Int :=
  let s := get_hyprland_option popen option
  if s = [] then def_val
  else
    match stoi s with
    | some v => v
    | none => def_val

/-- The function `get_bool_option`: the `bool` default is converted to `int`
for the call and the result is compared with zero. -/
def get_bool_option (popen : Popen) (option : Str) (def_val : Bool) : Bool :=
  get_int_option popen option (if def_val then 1 else 0) != 0

/-- The function `get_string_option`. -/
def get_string_option (popen : Popen) (option : Str) : Str :=
  get_hyprland_option popen option

/-! ## Layout table and the program state (`main.cpp` lines 78-200) -/

/-- The struct `LayoutInfo`. -/
structure LayoutInfo where
  code : Str
  name : Str
deriving DecidableEq, Repr

/-- The array `all_layouts`.  The terminating entry `{nullptr, nullptr}` of
the source is the end of the list: reading position `all_layouts.length` finds
the null code. -/
def all_layouts : List LayoutInfo :=
  [
    LayoutInfo.mk "us".toList "United States".toList,
    LayoutInfo.mk "gb".toList "United Kingdom".toList,
    LayoutInfo.mk "de".toList "German".toList,
    LayoutInfo.mk "fr".toList "French".toList,
    LayoutInfo.mk "es".toList "Spanish".toList,
    LayoutInfo.mk "it".toList "Italian".toList,
    LayoutInfo.mk "pt".toList "Portuguese".toList,
    LayoutInfo.mk "br".toList "Brazilian".toList,
    LayoutInfo.mk "ru".toList "Russian".toList,
    LayoutInfo.mk "ua".toList "Ukrainian".toList,
    LayoutInfo.mk "pl".toList "Polish".toList,
    LayoutInfo.mk "cz".toList "Czech".toList,
    LayoutInfo.mk "sk".toList "Slovak".toList,
    LayoutInfo.mk "hu".toList "Hungarian".toList,
    LayoutInfo.mk "ro".toList "Romanian".toList,
    LayoutInfo.mk "bg".toList "Bulgarian".toList,
    LayoutInfo.mk "hr".toList "Croatian".toList,
    LayoutInfo.mk "si".toList "Slovenian".toList,
    LayoutInfo.mk "rs".toList "Serbian".toList,
    LayoutInfo.mk "mk".toList "Macedonian".toList,
    LayoutInfo.mk "gr".toList "Greek".toList,
    LayoutInfo.mk "tr".toList "Turkish".toList,
    LayoutInfo.mk "il".toList "Hebrew".toList,
    LayoutInfo.mk "ara".toList "Arabic".toList,
    LayoutInfo.mk "ir".toList "Persian".toList,
    LayoutInfo.mk "iq".toList "Iraqi".toList,
    LayoutInfo.mk "sy".toList "Syrian".toList,
    LayoutInfo.mk "eg".toList "Egyptian".toList,
    LayoutInfo.mk "ma".toList "Moroccan".toList,
    LayoutInfo.mk "dz".toList "Algerian".toList,
    LayoutInfo.mk "in".toList "Indian".toList,
    LayoutInfo.mk "jp".toList "Japanese".toList,
    LayoutInfo.mk "kr".toList "Korean".toList,
    LayoutInfo.mk "cn".toList "Chinese".toList,
    LayoutInfo.mk "tw".toList "Taiwanese".toList,
    LayoutInfo.mk "th".toList "Thai".toList,
    LayoutInfo.mk "vn".toList "Vietnamese".toList,
    LayoutInfo.mk "id".toList "Indonesian".toList,
    LayoutInfo.mk "my".toList "Malaysian".toList,
    LayoutInfo.mk "ph".toList "Filipino".toList,
    LayoutInfo.mk "pk".toList "Pakistani".toList,
    LayoutInfo.mk "bd".toList "Bangladeshi".toList,
    LayoutInfo.mk "np".toList "Nepali".toList,
    LayoutInfo.mk "lk".toList "Sri Lankan".toList,
    LayoutInfo.mk "se".toList "Swedish".toList,
    LayoutInfo.mk "no".toList "Norwegian".toList,
    LayoutInfo.mk "dk".toList "Danish".toList,
    LayoutInfo.mk "fi".toList "Finnish".toList,
    LayoutInfo.mk "is".toList "Icelandic".toList,
    LayoutInfo.mk "nl".toList "Dutch".toList,
    LayoutInfo.mk "be".toList "Belgian".toList,
    LayoutInfo.mk "ch".toList "Swiss".toList,
    LayoutInfo.mk "at".toList "Austrian".toList,
    LayoutInfo.mk "ca".toList "Canadian".toList,
    LayoutInfo.mk "latam".toList "Latin American".toList,
    LayoutInfo.mk "ie".toList "Irish".toList,
    LayoutInfo.mk "al".toList "Albanian".toList,
    LayoutInfo.mk "am".toList "Armenian".toList,
    LayoutInfo.mk "az".toList "Azerbaijani".toList,
    LayoutInfo.mk "ge".toList "Georgian".toList,
    LayoutInfo.mk "by".toList "Belarusian".toList,
    LayoutInfo.mk "lt".toList "Lithuanian".toList,
    LayoutInfo.mk "lv".toList "Latvian".toList,
    LayoutInfo.mk "ee".toList "Estonian".toList,
    LayoutInfo.mk "mt".toList "Maltese".toList,
    LayoutInfo.mk "me".toList "Montenegrin".toList,
    LayoutInfo.mk "af".toList "Afghan".toList,
    LayoutInfo.mk "kz".toList "Kazakh".toList,
    LayoutInfo.mk "uz".toList "Uzbek".toList,
    LayoutInfo.mk "kg".toList "Kyrgyz".toList,
    LayoutInfo.mk "tj".toList "Tajik".toList,
    LayoutInfo.mk "tm".toList "Turkmen".toList,
    LayoutInfo.mk "mn".toList "Mongolian".toList,
    LayoutInfo.mk "mm".toList "Myanmar".toList,
    LayoutInfo.mk "kh".toList "Khmer".toList,
    LayoutInfo.mk "la".toList "Lao".toList,
    LayoutInfo.mk "ke".toList "Kenyan".toList,
    LayoutInfo.mk "tz".toList "Tanzanian".toList,
    LayoutInfo.mk "za".toList "South African".toList,
    LayoutInfo.mk "gh".toList "Ghanaian".toList,
    LayoutInfo.mk "ng".toList "Nigerian".toList,
    LayoutInfo.mk "epo".toList "Esperanto".toList]

/-- One call the program makes for its effect only. -/
inductive Effect where
  /-- The call `std::system(cmd)`. -/
  | system (cmd : Str)
  /-- A direct call of `refresh_layouts_list()`. -/
  | refresh_layouts_list
  /-- The call `g_idle_add(deferred_refresh_layouts, nullptr)`. -/
  | g_idle_add_deferred_refresh_layouts
  /-- A direct call of `refresh_keybinds_list()`. -/
  | refresh_keybinds_list
  /-- The call `adw_dialog_close(dialog)`. -/
  | adw_dialog_close
deriving DecidableEq, Repr

/-- The mutable globals of the program together with the calls made so far. -/
structure State where
  selected_layouts : List Str
  selected_modifier_index : Int
  current_layout_switch_bind : Str
  trace : List Effect
deriving DecidableEq, Repr

/-- The globals as their initialisers leave them at program start. -/
def State.init : State :=
  { selected_layouts := [], selected_modifier_index := 0,
    current_layout_switch_bind := [], trace := [] }

/-- The command lines handed to `std::system`, in order. -/
def commands : List Effect → List Str
  | [] => []
  | Effect.system cmd :: rest => cmd :: commands rest
  | _ :: rest => commands rest

/-- Append one call to the trace. -/
def State.emit (s : State) (e : Effect) : State :=
  { s with trace := s.trace ++ [e] }

/-- The function `execute_hyprctl`. -/
def execute_hyprctl (command : Str) (s : State) : State :=
  let full_command := "hyprctl keyword ".toList ++ command
  s.emit (Effect.system full_command)

/-- The function `execute_hyprctl_bind`. -/
def execute_hyprctl_bind (command : Str) (s : State) : State :=
  let full_command := "hyprctl ".toList ++ command
  s.emit (Effect.system full_command)

/-- The `for` loop of `apply_keyboard_layouts` from index `i` on: `todo` are
the elements `selected_layouts[i..]`, `layouts_str` the string built so far. -/
def layouts_str_loop : Nat → List Str → Str → Str
  | _, [], layouts_str => layouts_str
  | i, x :: todo, layouts_str =>
    let layouts_str := if i > 0 then layouts_str ++ ",".toList else layouts_str
    layouts_str_loop (i + 1) todo (layouts_str ++ x)

/-- The function `apply_keyboard_layouts`. -/
def apply_keyboard_layouts (s : State) : State :=
  if s.selected_layouts = [] then
    execute_hyprctl "input:kb_layout us".toList s
  else
    let layouts_str := layouts_str_loop 0 s.selected_layouts []
    execute_hyprctl ("input:kb_layout ".toList ++ layouts_str) s

/-! ## Layout handlers (`main.cpp` lines 499-572) -/

/-- The scan of `get_layout_name` over the table entries not yet visited. -/
def get_layout_name_loop (code : Str) : List LayoutInfo → Str
  | [] => code
  | e :: rest => if code = e.code then e.name else get_layout_name_loop code rest

/-- The function `get_layout_name`. -/
def get_layout_name (code : Str) : Str :=
  get_layout_name_loop code all_layouts

/-- Model of `std::find(v.begin(), v.end(), x)` as an index: the position of
the first element equal to `x`, `v.size()` for `v.end()`. -/
def std_find (v : List Str) (x : Str) : Nat :=
  match v with
  | [] => 0
  | y :: rest => if y = x then 0 else std_find rest x + 1

/-- Model of `vector::erase(it)`: the element at position `it` is removed. -/
def vector_erase (v : List Str) (it : Nat) : List Str :=
  match v, it with
  | [], _ => []
  | _ :: rest, 0 => rest
  | y :: rest, it + 1 => y :: vector_erase rest it

/-- The function `on_remove_layout`; `layout` is the handler's `user_data`. -/
def on_remove_layout (layout : Str) (s : State) : State :=
  let it := std_find s.selected_layouts layout
  if it ≠ s.selected_layouts.length then
    let s := { s with selected_layouts := vector_erase s.selected_layouts it }
    let s := s.emit Effect.g_idle_add_deferred_refresh_layouts
    apply_keyboard_layouts s
  else s

/-- The function `on_layout_selected`.  The argument is the activated row:
`none` for a null row, otherwise its index in the dialog's list box, which
holds one row for each entry of `all_layouts`.  The read `all_layouts[index]`
finds the null code at the terminator; an index beyond it, which the dialog
cannot produce, is treated the same way. -/
def on_layout_selected (row : Option Nat) (s : State) : State :=
  match row with
  | none => s
  | some index =>
    let s :=
      match all_layouts[index]? with
      | some e =>
        let layout := e.code
        if std_find s.selected_layouts layout = s.selected_layouts.length then
          let s := { s with selected_layouts := s.selected_layouts ++ [layout] }
          let s := s.emit Effect.refresh_layouts_list
          apply_keyboard_layouts s
        else s
      | none => s
    s.emit Effect.adw_dialog_close

/-! ## Page construction (`main.cpp` lines 1108-1175) -/

/-- The successive results of `while (std::getline(ss, line, delim))` on a
stream holding `rest`, for at most `fuel` rounds.  Every successful round
extracts at least one character, so `rest.length` rounds exhaust the stream
(`getlines_fuel_stable`). -/
def getlines_fuel (delim : Char) : Nat → Str → List Str
  | 0, _ => []
  | fuel + 1, rest =>
    match getline delim rest with
    | none => []
    | some (line, rest) => line :: getlines_fuel delim fuel rest

/-- All the lines a `while (std::getline(ss, line, delim))` loop sees. -/
def getlines (delim : Char) (s : Str) : List Str :=
  getlines_fuel delim s.length s

/-- The statement `x.erase(0, x.find_first_not_of(" \t"))`: the leading
blanks and tabs are removed (all of `x` when it has nothing else). -/
def erase_leading_blanks (x : Str) : Str :=
  x.dropWhile (fun c => c == ' ' || c == '\t')

/-- Model of `std::string::find(const char *)`, counting from position `i`:
the position of the first occurrence of `pat`, `none` for `npos`. -/
def find_str_from (pat : Str) : Str → Nat → Option Nat
  | [], i => if pat = [] then some i else none
  | c :: cs, i => if pat.isPrefixOf (c :: cs) then some i else find_str_from pat cs (i + 1)

/-- Model of `std::string::find(const char *)`. -/
def find_str (s pat : Str) : Option Nat :=
  find_str_from pat s 0

/-- The exceptions of the standard library that reach the program. -/
inductive Exn where
  | invalid_argument
  | out_of_range
deriving DecidableEq, Repr

deriving instance DecidableEq for Except

/-- Model of `std::string::substr(pos)`: it throws `std::out_of_range` when
`pos` is beyond the size of the string. -/
def substr (s : Str) (pos : Nat) : Except Exn Str :=
  if pos > s.length then Except.error Exn.out_of_range else Except.ok (s.drop pos)

/-- The body of the `while` loop of `load_keybind_state` for one line, on the
locals `(modmask, key_code)`.  The first `if` sits in a `try` block that
swallows every exception; the second does not, so an exception of its `substr`
leaves the function. -/
def load_keybind_line (locals : Int × Str) (line : Str) : Except Exn (Int × Str) :=
  let modmask : Int :=
    match find_str line "modmask:".toList with
    | some pos =>
      match substr line (pos + 9) with
      | Except.ok t =>
        match stoi t with
        | some v => v
        | none => locals.1
      | Except.error _ => locals.1
    | none => locals.1
  match find_str line "key:".toList with
  | some pos =>
    match substr line (pos + 5) with
    | Except.ok key_code => Except.ok (modmask, erase_leading_blanks key_code)
    | Except.error e => Except.error e
  | none => Except.ok (modmask, locals.2)

/-- The `while` loop of `load_keybind_state` over the lines still to read. -/
def load_keybind_loop : List Str → Int × Str → Except Exn (Int × Str)
  | [], locals => Except.ok locals
  | line :: rest, locals =>
    match load_keybind_line locals line with
    | Except.ok locals => load_keybind_loop rest locals
    | Except.error e => Except.error e

/-- The chain of comparisons of `load_keybind_state` that names a modmask. -/
def mod_str_of (modmask : Int) : Str :=
  if modmask = 64 then "SUPER".toList
  else if modmask = 8 then "ALT".toList
  else if modmask = 4 then "CTRL".toList
  else if modmask = 1 then "SHIFT".toList
  else if modmask = 65 then "SUPER_SHIFT".toList
  else if modmask = 9 then "ALT_SHIFT".toList
  else if modmask = 12 then "CTRL_ALT".toList
  else if modmask = 72 then "SUPER_ALT".toList
  else []

/-- The function `load_keybind_state`; `Except.error` is an exception that
leaves the function uncaught. -/
def load_keybind_state (popen : Popen) (s : State) : Except Exn State :=
  let s := { s with current_layout_switch_bind := [] }
  let output :=
    exec_output popen "hyprctl binds | grep -B 4 \'arg: hyprctl switchxkblayout\'".toList
  if output = [] then Except.ok s
  else
    match load_keybind_loop (getlines '\n' output) (0, []) with
    | Except.error e => Except.error e
    | Except.ok (modmask, key_code) =>
      let mod_str := mod_str_of modmask
      if mod_str ≠ [] ∧ key_code ≠ [] then
        Except.ok { s with current_layout_switch_bind := mod_str ++ ", ".toList ++ key_code }
      else Except.ok s

/-- The part of `create_keyboard_page` that loads `selected_layouts` from the
compositor (lines 1163-1172). -/
def load_selected_layouts (popen : Popen) (s : State) : State :=
  let s := { s with selected_layouts := [] }
  let layouts_str := get_string_option popen "input:kb_layout".toList
  if layouts_str ≠ [] then
    { s with selected_layouts :=
        s.selected_layouts ++ (getlines ',' layouts_str).map erase_leading_blanks }
  else s

/-- The function `create_keyboard_page` as far as the globals and the
commands go: the layouts are loaded, then the key binding, and the two list
widgets are filled by `refresh_layouts_list()` and `refresh_keybinds_list()`.
The rest of the function builds widgets and connects handlers. -/
def create_keyboard_page (popen : Popen) (s : State) : Except Exn State :=
  match load_keybind_state popen (load_selected_layouts popen s) with
  | Except.error e => Except.error e
  | Except.ok s =>
    let s := s.emit Effect.refresh_layouts_list
    Except.ok (s.emit Effect.refresh_keybinds_list)

/-- One user action on the layout list: activating row `row` of the add
dialog, or pressing the remove button that carries `layout`. -/
inductive LayoutOp where
  | add (row : Nat)
  | remove (layout : Str)
deriving DecidableEq, Repr

/-- The handler an action runs. -/
def LayoutOp.run (op : LayoutOp) (s : State) : State :=
  match op with
  | LayoutOp.add row => on_layout_selected (some row) s
  | LayoutOp.remove layout => on_remove_layout layout s

/-- The handlers of a sequence of actions, run one after the other. -/
def run_ops (s : State) (ops : List LayoutOp) : State :=
  ops.foldl (fun s op => op.run s) s

/-- A world for examples: `getoption input:kb_layout` prints `kb_layout`, the
binds query prints nothing. -/
def popen_kb_layout (kb_layout : Str) : Popen := fun cmd =>
  if cmd = "hyprctl getoption input:kb_layout".toList then some kb_layout else some []

/-! ## Key binding and combo handlers (`main.cpp` lines 214-454) -/

/-- The command line of `load_keybind_state`. -/
def binds_query : Str :=
  "hyprctl binds | grep -B 4 \'arg: hyprctl switchxkblayout\'".toList

/-- The array `modifiers` of `apply_layout_switch_keybind`. -/
def modifiers : List Str :=
  ["SUPER".toList, "ALT".toList, "CTRL".toList, "SHIFT".toList, "SUPER_SHIFT".toList,
   "ALT_SHIFT".toList, "CTRL_ALT".toList, "SUPER_ALT".toList]

/-- The function `apply_layout_switch_keybind`.  The argument stands for the
global `layout_switch_key_entry` and its text: `none` for a null widget
pointer, `some none` for a null text, `some (some key)` for the text `key`. -/
def apply_layout_switch_keybind (layout_switch_key_entry : Option (Option Str))
    (s : State) : State :=
  match layout_switch_key_entry with
  | none => s
  | some none => s
  | some (some key) =>
    if key = [] then s
    else if s.selected_modifier_index < 0 ∨ s.selected_modifier_index ≥ 8 then s
    else
      let s :=
        if s.current_layout_switch_bind ≠ [] then
          execute_hyprctl_bind ("keyword unbind ".toList ++ s.current_layout_switch_bind) s
        else s
      let bind_key :=
        modifiers.getD s.selected_modifier_index.toNat [] ++ ", ".toList ++ key
      let s := { s with current_layout_switch_bind := bind_key }
      execute_hyprctl_bind
        ("keyword bind ".toList ++ bind_key ++
          ", exec, hyprctl switchxkblayout all next".toList) s

/-- The function `on_modifier_changed`: the `guint` that
`adw_combo_row_get_selected` returns is stored in an `int`. -/
def on_modifier_changed (selected : Nat) (s : State) : State :=
  { s with selected_modifier_index :=
      if selected < 2147483648 then (selected : Int) else (selected : Int) - 4294967296 }

/-- The function `on_remove_keybind`. -/
def on_remove_keybind (s : State) : State :=
  if s.current_layout_switch_bind ≠ [] then
    let s := execute_hyprctl_bind ("keyword unbind ".toList ++ s.current_layout_switch_bind) s
    let s := { s with current_layout_switch_bind := [] }
    s.emit Effect.refresh_keybinds_list
  else s

/-- The function `on_apply_keybind_clicked`. -/
def on_apply_keybind_clicked (layout_switch_key_entry : Option (Option Str))
    (s : State) : State :=
  (apply_layout_switch_keybind layout_switch_key_entry s).emit Effect.refresh_keybinds_list

/-- Model of `std::to_string` on an unsigned value: its decimal digits. -/
def to_string_unsigned (n : Nat) : Str :=
  Nat.toDigits 10 n

/-- The function `on_accel_profile_changed`; `selected` is the `guint` that
`adw_combo_row_get_selected` returns. -/
def on_accel_profile_changed (selected : Nat) (s : State) : State :=
  let profiles : List Str := ["".toList, "flat".toList, "adaptive".toList]
  if selected > 0 ∧ selected < 3 then
    execute_hyprctl ("input:accel_profile ".toList ++ profiles.getD selected []) s
  else s

/-- The function `on_scroll_method_changed`. -/
def on_scroll_method_changed (selected : Nat) (s : State) : State :=
  let methods : List Str :=
    ["".toList, "2fg".toList, "edge".toList, "on_button_down".toList, "no_scroll".toList]
  if selected > 0 ∧ selected < 5 then
    execute_hyprctl ("input:scroll_method ".toList ++ methods.getD selected []) s
  else s

/-- The function `on_follow_mouse_changed`. -/
def on_follow_mouse_changed (selected : Nat) (s : State) : State :=
  execute_hyprctl ("input:follow_mouse ".toList ++ to_string_unsigned selected) s

/-- The function `on_clickfinger_behavior_changed`. -/
def on_clickfinger_behavior_changed (selected : Nat) (s : State) : State :=
  execute_hyprctl ("input:touchpad:clickfinger_behavior ".toList ++ to_string_unsigned selected) s

/-- The function `on_workspace_swipe_fingers_changed`; the sum `selected + 3`
is computed in `guint`, that is modulo `2^32`. -/
def on_workspace_swipe_fingers_changed (selected : Nat) (s : State) : State :=
  execute_hyprctl
    ("gestures:workspace_swipe_fingers ".toList ++
      to_string_unsigned ((selected + 3) % 4294967296)) s

/-- The option lists the page constructors give the five combo rows
(`accel_options`, `scroll_options`, `follow_options`, `click_options`,
`fingers_options`), without their terminating `nullptr`. -/
def accel_options : List Str := ["Default".toList, "Flat".toList, "Adaptive".toList]

/-- See `accel_options`. -/
def scroll_options : List Str :=
  ["Default".toList, "Two Finger".toList, "Edge".toList, "On Button Down".toList,
   "No Scroll".toList]

/-- See `accel_options`. -/
def follow_options : List Str :=
  ["Disabled".toList, "Always".toList, "Loose".toList, "Strict".toList]

/-- See `accel_options`. -/
def click_options : List Str := ["Button Areas".toList, "Clickfinger".toList]

/-- See `accel_options`. -/
def fingers_options : List Str := ["3 Fingers".toList, "4 Fingers".toList]

/-- The calls a handler added to the trace: what `after` has beyond `before`. -/
def new_effects (before after : State) : List Effect :=
  after.trace.drop before.trace.length

/-- One user action on the key binding: a new selection in the modifier combo
row, a click on the apply row with the key entry in the given state, or a
click on the remove button. -/
inductive KeybindOp where
  | modifier_changed (selected : Nat)
  | apply (layout_switch_key_entry : Option (Option Str))
  | remove
deriving DecidableEq, Repr

/-- The handler a key binding action runs. -/
def KeybindOp.run (op : KeybindOp) (s : State) : State :=
  match op with
  | KeybindOp.modifier_changed selected => on_modifier_changed selected s
  | KeybindOp.apply layout_switch_key_entry => on_apply_keybind_clicked layout_switch_key_entry s
  | KeybindOp.remove => on_remove_keybind s

/-- The handlers of a sequence of key binding actions, one after the other. -/
def run_keybind_ops (s : State) (ops : List KeybindOp) : State :=
  ops.foldl (fun s op => op.run s) s

/-- The function `on_float_switch_override_changed`; `active` is what
`adw_switch_row_get_active` returns. -/
def on_float_switch_override_changed (active : Bool) (s : State) : State :=
  execute_hyprctl
    ("input:float_switch_override_focus ".toList ++ (if active then "2".toList else "0".toList)) s

/-- The argument `create_mouse_page` gives `adw_switch_row_set_active` for
the float switch row (line 771). -/
def float_switch_override_active (popen : Popen) : Bool :=
  get_int_option popen "input:float_switch_override_focus".toList 1 == 2

/-- The first line of a text: everything before the first line feed. -/
def first_line (output : Str) : Str :=
  output.takeWhile (fun c => c != '\n')

/-- As the specification words it: the substring after the first occurrence
of `": "` in a line, empty when the line has no such occurrence. -/
def spec_after_colon_space : Str → Str
  | [] => []
  | ':' :: ' ' :: rest => rest
  | _ :: rest => spec_after_colon_space rest

/-- As the specification words the reader contract: the substring after
`": "` on the first line of the output. -/
def spec_read (output : Str) : Str :=
  spec_after_colon_space (first_line output)

/-- As the specification words the flushed value: the codes joined by single
commas, in list order, with no comma before the first or after the last. -/
def spec_join_commas : List Str → Str
  | [] => []
  | [x] => x
  | x :: y :: rest => x ++ ',' :: spec_join_commas (y :: rest)

/-- As the specification lists them: the modmask values 1, 4, 8, 64, 9, 12,
65, 72 with the names for Shift, Ctrl, Alt, Super, Alt+Shift, Ctrl+Alt,
Super+Shift, Super+Alt. -/
def spec_modmask_names : List (Int × Str) :=
  [(1, "SHIFT".toList), (4, "CTRL".toList), (8, "ALT".toList), (64, "SUPER".toList),
   (9, "ALT_SHIFT".toList), (12, "CTRL_ALT".toList), (65, "SUPER_SHIFT".toList),
   (72, "SUPER_ALT".toList)]

/-- As the specification words the tracked binding: empty, or `NAME, key`
with `NAME` one of the eight modifier names and a non-empty key. -/
def spec_binding_form (b : Str) : Prop :=
  b = [] ∨
  ∃ name key : Str,
    name ∈ ["SUPER".toList, "ALT".toList, "CTRL".toList, "SHIFT".toList, "SUPER_SHIFT".toList,
      "ALT_SHIFT".toList, "CTRL_ALT".toList, "SUPER_ALT".toList] ∧
    key ≠ [] ∧ b = name ++ ", ".toList ++ key

/-- As the specification words the bind command for the binding string `b`
(`MODIFIER, key`). -/
def spec_bind_command (b : Str) : Str :=
  "hyprctl keyword bind ".toList ++ b ++ ", exec, hyprctl switchxkblayout all next".toList

/-- As the specification words the unbind command for the binding string `b`. -/
def spec_unbind_command (b : Str) : Str :=
  "hyprctl keyword unbind ".toList ++ b

/-- A command trace in which every bind is followed by the unbind of the same
string before the next bind: the pairs for the strings `closed`, in order,
then one last bind for `tracked` when that is not empty. -/
def spec_paired_commands : List Str → Str → List Str
  | [], tracked => if tracked = [] then [] else [spec_bind_command tracked]
  | b :: closed, tracked =>
    spec_bind_command b :: spec_unbind_command b :: spec_paired_commands closed tracked

/-- The invariant of the key binding actions: the commands of a state are those of the start followed by a paired
trace that ends open exactly when a binding is tracked. -/
def paired_from (base : List Str) (s : State) : Prop :=
  ∃ closed : List Str,
    commands s.trace = base ++ spec_paired_commands closed s.current_layout_switch_bind

/-- The modmask that names the modifier of each index of the combo row:
Super 64, Alt 8, Ctrl 4, Shift 1, and the sums for the four pairs. -/
def spec_index_modmask : List Int := [64, 8, 4, 1, 65, 9, 12, 72]

/-- The last line of `lines` that satisfies `p`, if there is one. -/
def last_line_with (p : Str → Bool) : List Str → Option Str
  | [] => none
  | line :: rest =>
    match last_line_with p rest with
    | some later => some later
    | none => if p line then some line else none

/-- A line that contains `modmask:`. -/
def has_modmask (line : Str) : Bool :=
  (find_str line "modmask:".toList).isSome

/-- A line that contains `key:`. -/
def has_key (line : Str) : Bool :=
  (find_str line "key:".toList).isSome

/-- The number a `modmask:` line gives: what follows `modmask:` and one more
character, read by `std::stoi`; `none` when the line has no `modmask:` or the
text does not parse. -/
def modmask_of_line (line : Str) : Option Int :=
  match find_str line "modmask:".toList with
  | some pos =>
    match substr line (pos + 9) with
    | Except.ok t => stoi t
    | Except.error _ => none
  | none => none

/-- A `modmask:` line whose number parses. -/
def parses_modmask (line : Str) : Bool :=
  (modmask_of_line line).isSome

/-- The key a `key:` line gives: what follows `key:` and one more character,
without leading blanks. -/
def key_of_line (line : Str) : Str :=
  match find_str line "key:".toList with
  | some pos => erase_leading_blanks (line.drop (pos + 5))
  | none => []

/-! ## Lemmas on the standard-library models -/

theorem getline_of_ne_nil (delim : Char) (rest : Str) (h : rest ≠ []) :
    getline delim rest =
      some (rest.takeWhile (fun c => c != delim),
            (rest.dropWhile (fun c => c != delim)).drop 1) := by
  simp [getline, h]

theorem find_char_of_not_mem (s : Str) (c : Char) (h : c ∉ s) : find_char s c = none := by
  have h1 : ¬ (s.indexOf c < s.length) := by
    rw [List.indexOf_lt_length]; exact h
  simp [find_char, h1]

theorem find_char_append (pre tail : Str) (c : Char) (h : c ∉ pre) :
    find_char (pre ++ c :: tail) c = some pre.length := by
  have h1 : (pre ++ c :: tail).indexOf c = pre.length := by
    rw [List.indexOf_append_of_not_mem h, List.indexOf_cons_self]; rfl
  have h2 : pre.length < (pre ++ c :: tail).length := by simp
  simp only [find_char, h1, h2, if_true]

theorem spec_after_colon_space_append (pre rest : Str) (h : ':' ∉ pre) :
    spec_after_colon_space (pre ++ ':' :: ' ' :: rest) = rest := by
  induction pre with
  | nil => rfl
  | cons a pre ih =>
    have ha : a ≠ ':' := fun e => h (by simp [e])
    have hp : ':' ∉ pre := fun e => h (by simp [e])
    have step : spec_after_colon_space (a :: (pre ++ ':' :: ' ' :: rest)) =
        spec_after_colon_space (pre ++ ':' :: ' ' :: rest) := by
      rw [spec_after_colon_space]
      intro b hb
      exact absurd hb ha
    rw [List.cons_append, step]
    exact ih hp

/-- What `get_hyprland_option` computes, in one equation: with `line` the
first line of the output of `exec_output`, the result is `line` without its
first `colon_pos + 2` characters, or empty when `line` has no colon. -/
theorem get_hyprland_option_eq (popen : Popen) (option : Str) :
    get_hyprland_option popen option =
      match find_char (first_line (exec_output popen ("hyprctl getoption ".toList ++ option))) ':' with
      | some colon_pos =>
        (first_line (exec_output popen ("hyprctl getoption ".toList ++ option))).drop (colon_pos + 2)
      | none => [] := by
  dsimp only [get_hyprland_option]
  generalize exec_output popen ("hyprctl getoption ".toList ++ option) = output
  by_cases h : output = []
  · simp [h, first_line, find_char]
  · simp only [h, if_false, getline_of_ne_nil _ _ h, first_line]
    split
    · next colon_pos hc =>
      split
      · rfl
      · next hlt =>
        symm
        apply List.drop_eq_nil_of_le
        omega
    · rfl

/-! ## Theorems on the option reader -/

/-- C1, as stated, fails: on the first line `input:kb_layout: us` the code
returns `b_layout: us` (what starts two characters after the first colon),
where the substring after the first `": "` is `us`. -/
theorem get_hyprland_option_not_spec_read :
    ¬ ∀ (popen : Popen) (option : Str),
        get_hyprland_option popen option =
          spec_read (exec_output popen ("hyprctl getoption ".toList ++ option)) := by
  intro h
  have h1 := h (fun _ => some "input:kb_layout: us\nset: true\n".toList) "input:kb_layout".toList
  revert h1
  decide

/-- C1, amended: `get_hyprland_option` returns the part of the first line of
the output that starts two characters after the first colon.  It is empty when
the output is empty, when the first line has no colon and when the first colon
ends the line; and it is the substring after the first `": "` whenever the
first colon of the line is directly followed by a space. -/
theorem get_hyprland_option_after_first_colon (popen : Popen) (option : Str) :
    (exec_output popen ("hyprctl getoption ".toList ++ option) = [] →
        get_hyprland_option popen option = []) ∧
    (':' ∉ first_line (exec_output popen ("hyprctl getoption ".toList ++ option)) →
        get_hyprland_option popen option = []) ∧
    (∀ pre : Str, ':' ∉ pre →
        first_line (exec_output popen ("hyprctl getoption ".toList ++ option)) = pre ++ [':'] →
        get_hyprland_option popen option = []) ∧
    (∀ (pre : Str) (c : Char) (rest : Str), ':' ∉ pre →
        first_line (exec_output popen ("hyprctl getoption ".toList ++ option)) =
          pre ++ ':' :: c :: rest →
        get_hyprland_option popen option = rest) ∧
    (∀ pre rest : Str, ':' ∉ pre →
        first_line (exec_output popen ("hyprctl getoption ".toList ++ option)) =
          pre ++ ':' :: ' ' :: rest →
        get_hyprland_option popen option =
          spec_read (exec_output popen ("hyprctl getoption ".toList ++ option))) := by
  have key := get_hyprland_option_eq popen option
  have drop_app : ∀ (pre tail : Str), (pre ++ ':' :: tail).drop (pre.length + 1) = tail := by
    intro pre tail
    induction pre with
    | nil => rfl
    | cons a pre ih => simp
  refine ⟨?_, ?_, ?_, ?_, ?_⟩
  · intro h
    rw [key, h]
    rfl
  · intro h
    rw [key, find_char_of_not_mem _ _ h]
  · intro pre hpre hline
    rw [key, hline, find_char_append pre [] ':' hpre]
    apply List.drop_eq_nil_of_le
    simp
  · intro pre c rest hpre hline
    rw [key, hline, find_char_append pre (c :: rest) ':' hpre]
    have := drop_app pre (c :: rest)
    show List.drop (pre.length + 1 + 1) (pre ++ ':' :: c :: rest) = rest
    rw [← List.drop_drop, this]
    rfl
  · intro pre rest hpre hline
    rw [key, hline, find_char_append pre (' ' :: rest) ':' hpre]
    show List.drop (pre.length + 1 + 1) (pre ++ ':' :: ' ' :: rest) = _
    rw [← List.drop_drop, drop_app pre (' ' :: rest), spec_read, hline,
      spec_after_colon_space_append pre rest hpre]
    rfl

/-- Witness for C1 amended: the response `str: us` to the query of
`input:kb_layout` is read as `us`. -/
theorem get_hyprland_option_after_first_colon_witness :
    get_hyprland_option (popen_kb_layout "str: us\nset: true\n".toList) "input:kb_layout".toList =
      "us".toList :=
  (get_hyprland_option_after_first_colon (popen_kb_layout "str: us\nset: true\n".toList)
    "input:kb_layout".toList).2.2.2.1 "str".toList ' ' "us".toList (by decide) (by decide)

/-- C2: whenever the value string extracted from the response is empty or the
numeric parser rejects it, `get_float_option`, `get_int_option` and
`get_bool_option` return exactly the default they were given. -/
theorem typed_accessors_default (popen : Popen) (option : Str) :
    (∀ (D : Type) (stod : Str → Option D) (d : D),
        get_hyprland_option popen option = [] ∨ stod (get_hyprland_option popen option) = none →
        get_float_option stod popen option d = d) ∧
    (∀ d : Int,
        get_hyprland_option popen option = [] ∨ stoi (get_hyprland_option popen option) = none →
        get_int_option popen option d = d) ∧
    (∀ d : Bool,
        get_hyprland_option popen option = [] ∨ stoi (get_hyprland_option popen option) = none →
        get_bool_option popen option d = d) := by
  have hint : ∀ d : Int,
      get_hyprland_option popen option = [] ∨ stoi (get_hyprland_option popen option) = none →
      get_int_option popen option d = d := by
    intro d h
    unfold get_int_option
    rcases h with h | h
    · simp [h]
    · simp [h]
  refine ⟨?_, hint, ?_⟩
  · intro D stod d h
    unfold get_float_option
    rcases h with h | h
    · simp [h]
    · simp [h]
  · intro d h
    unfold get_bool_option
    rw [hint _ h]
    cases d <;> rfl

/-- Witness for C2: against a pipe that cannot be opened, reading
`missing:key` with the default `5/2` returns `5/2`, reading it as an integer
with default `7` returns `7`, and as a boolean with default `true` returns
`true`. -/
theorem typed_accessors_default_witness :
    get_float_option (fun _ => (none : Option ℚ)) (fun _ => none) "missing:key".toList (5 / 2) = 5 / 2 ∧
    get_int_option (fun _ => none) "missing:key".toList 7 = 7 ∧
    get_bool_option (fun _ => none) "missing:key".toList true = true :=
  ⟨(typed_accessors_default (fun _ => none) "missing:key".toList).1 ℚ (fun _ => none) (5 / 2)
      (Or.inl (by decide)),
   (typed_accessors_default (fun _ => none) "missing:key".toList).2.1 7 (Or.inl (by decide)),
   (typed_accessors_default (fun _ => none) "missing:key".toList).2.2 true (Or.inl (by decide))⟩

/-- C3: when the value extracted from the response parses as the integer `n`,
`get_bool_option` returns `false` for `n = 0` and `true` for every other `n`,
whatever the default. -/
theorem get_bool_option_nonzero (popen : Popen) (option : Str) (def_val : Bool) (n : Int)
    (h : stoi (get_hyprland_option popen option) = some n) :
    get_bool_option popen option def_val = decide (n ≠ 0) := by
  have hne : get_hyprland_option popen option ≠ [] := by
    intro e
    have h0 : stoi [] = none := by decide
    rw [e, h0] at h
    cases h
  unfold get_bool_option get_int_option
  simp only [hne, if_false, h]
  by_cases hn : n = 0 <;> simp [hn]

/-- Witness for C3: the response `int: 0` is read as `false` although the
default is `true`. -/
theorem get_bool_option_nonzero_witness :
    get_bool_option (fun _ => some "int: 0\nset: true\n".toList) "input:numlock_by_default".toList true =
      decide ((0 : Int) ≠ 0) :=
  get_bool_option_nonzero (fun _ => some "int: 0\nset: true\n".toList)
    "input:numlock_by_default".toList true 0 (by decide)

/-! ## Lemmas on the layout handlers -/

theorem std_find_le (v : List Str) (x : Str) : std_find v x ≤ v.length := by
  induction v with
  | nil => simp [std_find]
  | cons y rest ih =>
    unfold std_find
    split
    · simp
    · simpa using ih

theorem std_find_eq_length_iff (v : List Str) (x : Str) :
    std_find v x = v.length ↔ x ∉ v := by
  induction v with
  | nil => simp [std_find]
  | cons y rest ih =>
    unfold std_find
    by_cases h : y = x
    · simp [h]
    · have hx : ¬ x = y := fun e => h e.symm
      simp [h, hx, ih]

theorem vector_erase_std_find (v : List Str) (x : Str) :
    vector_erase v (std_find v x) = v.erase x := by
  induction v with
  | nil => simp [vector_erase]
  | cons y rest ih =>
    unfold std_find
    by_cases h : y = x
    · subst h
      simp [vector_erase]
    · have hb : ¬ (y == x) = true := by simpa using h
      simp only [h, if_false, vector_erase, ih, List.erase_cons_tail hb]

theorem commands_append (t u : List Effect) : commands (t ++ u) = commands t ++ commands u := by
  induction t with
  | nil => rfl
  | cons e t ih => cases e <;> simp [commands, ih]

theorem apply_keyboard_layouts_selected_layouts (s : State) :
    (apply_keyboard_layouts s).selected_layouts = s.selected_layouts := by
  unfold apply_keyboard_layouts
  split <;> rfl

/-- The loop of `apply_keyboard_layouts`, once it has passed index 0, appends
a comma and the code for each remaining element. -/
theorem layouts_str_loop_succ (i : Nat) (todo : List Str) (acc : Str) :
    layouts_str_loop (i + 1) todo acc =
      acc ++ (todo.map (fun x => ',' :: x)).foldr (fun x r => x ++ r) [] := by
  induction todo generalizing i acc with
  | nil => simp [layouts_str_loop]
  | cons x todo ih =>
    rw [layouts_str_loop]
    simp only [Nat.succ_pos, gt_iff_lt, if_true, ih]
    simp

theorem spec_join_commas_cons (x : Str) (rest : List Str) :
    spec_join_commas (x :: rest) =
      x ++ (rest.map (fun y => ',' :: y)).foldr (fun y r => y ++ r) [] := by
  induction rest generalizing x with
  | nil => simp [spec_join_commas]
  | cons y rest ih => simp [spec_join_commas, ih]

theorem spec_join_commas_ends (v : List Str) (h : v ≠ []) :
    ∃ pre : Str, spec_join_commas v = pre ++ v.getLast h := by
  induction v with
  | nil => exact absurd rfl h
  | cons x rest ih =>
    cases rest with
    | nil => exact ⟨[], rfl⟩
    | cons y rest =>
      obtain ⟨pre, hpre⟩ := ih (List.cons_ne_nil y rest)
      refine ⟨x ++ ',' :: pre, ?_⟩
      rw [spec_join_commas, hpre, List.getLast_cons_cons]
      simp

/-- A comma join of non-empty codes without commas neither begins nor ends
with a comma. -/
theorem spec_join_commas_no_outer_comma (v : List Str) (h : v ≠ [])
    (hcodes : ∀ x ∈ v, x ≠ [] ∧ ',' ∉ x) (t : Str) :
    spec_join_commas v ≠ ',' :: t ∧ spec_join_commas v ≠ t ++ [','] := by
  constructor
  · obtain ⟨x, rest, rfl⟩ := List.exists_cons_of_ne_nil h
    obtain ⟨hx, hcomma⟩ := hcodes x (by simp)
    obtain ⟨c, cs, rfl⟩ := List.exists_cons_of_ne_nil hx
    rw [spec_join_commas_cons]
    intro heq
    have hc : c = ',' := by
      simp only [List.cons_append, List.cons.injEq] at heq
      exact heq.1
    exact hcomma (by simp [hc])
  · obtain ⟨pre, hpre⟩ := spec_join_commas_ends v h
    obtain ⟨hx, hcomma⟩ := hcodes (v.getLast h) (List.getLast_mem h)
    rw [hpre, ← List.dropLast_append_getLast hx, ← List.append_assoc]
    intro heq
    have hlast := List.append_inj_right' heq rfl
    have hc : (v.getLast h).getLast hx = ',' := by
      simpa using hlast
    exact hcomma (hc ▸ List.getLast_mem hx)

/-- The loop of `apply_keyboard_layouts` builds the comma-joined list. -/
theorem layouts_str_loop_eq_join (v : List Str) :
    layouts_str_loop 0 v [] = spec_join_commas v := by
  cases v with
  | nil => rfl
  | cons x rest =>
    rw [layouts_str_loop, spec_join_commas_cons]
    simp only [gt_iff_lt, Nat.lt_irrefl, if_false, List.nil_append]
    exact layouts_str_loop_succ 0 rest x

/-- The one effect of `apply_keyboard_layouts` on a non-empty list. -/
theorem apply_keyboard_layouts_of_ne_nil (s : State) (h : s.selected_layouts ≠ []) :
    apply_keyboard_layouts s =
      s.emit (Effect.system ("hyprctl keyword input:kb_layout ".toList ++
        spec_join_commas s.selected_layouts)) := by
  unfold apply_keyboard_layouts execute_hyprctl
  simp only [h, if_false, layouts_str_loop_eq_join]
  rfl

/-- The body of `on_layout_selected` for a non-null row, with the test of
`std::find` against `end()` read as membership. -/
theorem on_layout_selected_some (row : Nat) (s : State) :
    on_layout_selected (some row) s =
      State.emit
        (match all_layouts[row]? with
         | some e =>
           if e.code ∈ s.selected_layouts then s
           else apply_keyboard_layouts
             (State.emit { s with selected_layouts := s.selected_layouts ++ [e.code] }
               Effect.refresh_layouts_list)
         | none => s)
        Effect.adw_dialog_close := by
  dsimp only [on_layout_selected]
  cases all_layouts[row]? with
  | none => rfl
  | some e =>
    by_cases hmem : e.code ∈ s.selected_layouts
    · have hf : ¬ std_find s.selected_layouts e.code = s.selected_layouts.length := by
        rw [std_find_eq_length_iff]; exact fun hn => hn hmem
      simp only [hf, hmem, if_true, if_false]
    · have hf : std_find s.selected_layouts e.code = s.selected_layouts.length := by
        rw [std_find_eq_length_iff]; exact hmem
      simp only [hf, hmem, if_true, if_false]

/-- The list that `on_layout_selected` leaves. -/
theorem on_layout_selected_selected_layouts (row : Nat) (s : State) :
    (on_layout_selected (some row) s).selected_layouts =
      match all_layouts[row]? with
      | some e => if e.code ∈ s.selected_layouts then s.selected_layouts
                  else s.selected_layouts ++ [e.code]
      | none => s.selected_layouts := by
  rw [on_layout_selected_some]
  cases all_layouts[row]? with
  | none => rfl
  | some e =>
    by_cases hmem : e.code ∈ s.selected_layouts
    · simp only [hmem, if_true]
      rfl
    · simp only [hmem, if_false]
      show (apply_keyboard_layouts _).selected_layouts = _
      rw [apply_keyboard_layouts_selected_layouts]
      rfl

/-- The list that `on_remove_layout` leaves. -/
theorem on_remove_layout_selected_layouts (layout : Str) (s : State) :
    (on_remove_layout layout s).selected_layouts = s.selected_layouts.erase layout := by
  unfold on_remove_layout
  by_cases hf : std_find s.selected_layouts layout = s.selected_layouts.length
  · have hmem := (std_find_eq_length_iff _ _).1 hf
    simp [hf, List.erase_of_not_mem hmem]
  · simp [hf, apply_keyboard_layouts_selected_layouts, State.emit, vector_erase_std_find]

theorem get_layout_name_loop_of_not_mem (code : Str) (table : List LayoutInfo)
    (h : ∀ e ∈ table, e.code ≠ code) : get_layout_name_loop code table = code := by
  induction table with
  | nil => rfl
  | cons e rest ih =>
    have he : ¬ code = e.code := fun eq => h e (by simp) eq.symm
    simp only [get_layout_name_loop, he, if_false]
    exact ih (fun e' he' => h e' (by simp [he']))

/-! ## Theorems on the layout list -/

set_option maxRecDepth 100000 in
/-- C4: for every code in the table `all_layouts`, `get_layout_name` returns
the name paired with it; for every code not in the table it returns the code
itself. -/
theorem get_layout_name_table :
    (∀ e ∈ all_layouts, get_layout_name e.code = e.name) ∧
    (∀ code : Str, (∀ e ∈ all_layouts, e.code ≠ code) → get_layout_name code = code) := by
  refine ⟨by decide, ?_⟩
  intro code h
  exact get_layout_name_loop_of_not_mem code all_layouts h

set_option maxRecDepth 100000 in
/-- Witness for C4: `xx` is not in the table and is returned unchanged. -/
theorem get_layout_name_table_witness : get_layout_name "xx".toList = "xx".toList :=
  get_layout_name_table.2 "xx".toList (by decide)

/-- C5: a second `add` of the same row leaves the list as the first `add`
left it; it only closes the dialog. -/
theorem on_layout_selected_twice (s : State) (row : Nat) :
    (on_layout_selected (some row) (on_layout_selected (some row) s)).selected_layouts =
      (on_layout_selected (some row) s).selected_layouts ∧
    on_layout_selected (some row) (on_layout_selected (some row) s) =
      (on_layout_selected (some row) s).emit Effect.adw_dialog_close := by
  have hlist := on_layout_selected_selected_layouts row s
  have hstep := on_layout_selected_some row (on_layout_selected (some row) s)
  cases hrow : all_layouts[row]? with
  | none =>
    rw [hrow] at hstep
    exact ⟨by rw [hstep]; rfl, hstep⟩
  | some e =>
    rw [hrow] at hlist hstep
    have hmem : e.code ∈ (on_layout_selected (some row) s).selected_layouts := by
      rw [hlist]
      by_cases hm : e.code ∈ s.selected_layouts
      · simp [hm]
      · simp [hm]
    simp only [hmem, if_true] at hstep
    exact ⟨by rw [hstep]; rfl, hstep⟩

/-- C6: from the empty list, adding the rows of two distinct codes `code1`
and `code2` and then removing `code1` leaves exactly `[code2]`. -/
theorem add_add_remove (s : State) (row1 row2 : Nat) (e1 e2 : LayoutInfo)
    (hs : s.selected_layouts = [])
    (h1 : all_layouts[row1]? = some e1) (h2 : all_layouts[row2]? = some e2)
    (hne : e1.code ≠ e2.code) :
    (on_remove_layout e1.code
      (on_layout_selected (some row2) (on_layout_selected (some row1) s))).selected_layouts =
      [e2.code] := by
  rw [on_remove_layout_selected_layouts, on_layout_selected_selected_layouts,
    on_layout_selected_selected_layouts, h1, h2]
  have hne2 : ¬ e2.code = e1.code := fun e => hne e.symm
  simp [hs, hne2]

/-- Witness for C6: rows 2 and 3 carry `de` and `fr`; after adding both to
the empty list and removing `de`, the list is `[fr]`. -/
theorem add_add_remove_witness :
    (on_remove_layout "de".toList
      (on_layout_selected (some 3) (on_layout_selected (some 2) State.init))).selected_layouts =
      ["fr".toList] :=
  add_add_remove State.init 2 3 (LayoutInfo.mk "de".toList "German".toList)
    (LayoutInfo.mk "fr".toList "French".toList) rfl (by decide) (by decide) (by decide)

/-- C7: on an empty list `apply_keyboard_layouts` makes exactly one call,
`std::system("hyprctl keyword input:kb_layout us")`, and changes nothing
else. -/
theorem apply_keyboard_layouts_empty (s : State) (h : s.selected_layouts = []) :
    apply_keyboard_layouts s =
      { s with trace := s.trace ++ [Effect.system "hyprctl keyword input:kb_layout us".toList] } := by
  unfold apply_keyboard_layouts execute_hyprctl State.emit
  simp only [h, if_true]
  rfl

/-- Witness for C7: the flush of the initial state. -/
theorem apply_keyboard_layouts_empty_witness :
    apply_keyboard_layouts State.init =
      { State.init with
        trace := State.init.trace ++ [Effect.system "hyprctl keyword input:kb_layout us".toList] } :=
  apply_keyboard_layouts_empty State.init rfl

/-- What `on_remove_layout` does when it finds the code: the element is
erased, the refresh is handed to `g_idle_add`, and the list is flushed. -/
theorem on_remove_layout_of_mem (layout : Str) (s : State) (h : layout ∈ s.selected_layouts) :
    on_remove_layout layout s =
      apply_keyboard_layouts
        (State.emit { s with selected_layouts := s.selected_layouts.erase layout }
          Effect.g_idle_add_deferred_refresh_layouts) := by
  have hf : ¬ std_find s.selected_layouts layout = s.selected_layouts.length := by
    rw [std_find_eq_length_iff]; exact fun hn => hn h
  dsimp only [on_remove_layout]
  simp only [ne_eq, hf, not_false_eq_true, if_true, vector_erase_std_find]

/-- C8, amended: after an add or a remove that changes the list into a
non-empty list, exactly one command is issued and it writes to
`input:kb_layout` the codes of the new list joined by single commas in list
order; when every code of the list is non-empty and has no comma, the string
the loop of `apply_keyboard_layouts` builds neither begins nor ends with a
comma.  From the empty list, adding `de` (row 2) and `fr` (row 3) flushes `de`
and then `de,fr`, and removing `de` afterwards flushes `fr`. -/
theorem flush_is_comma_joined :
    (∀ (s : State) (row : Nat),
        (on_layout_selected (some row) s).selected_layouts ≠ s.selected_layouts →
        (on_layout_selected (some row) s).selected_layouts ≠ [] →
        commands (on_layout_selected (some row) s).trace =
          commands s.trace ++ ["hyprctl keyword input:kb_layout ".toList ++
            spec_join_commas (on_layout_selected (some row) s).selected_layouts]) ∧
    (∀ (s : State) (layout : Str),
        (on_remove_layout layout s).selected_layouts ≠ s.selected_layouts →
        (on_remove_layout layout s).selected_layouts ≠ [] →
        commands (on_remove_layout layout s).trace =
          commands s.trace ++ ["hyprctl keyword input:kb_layout ".toList ++
            spec_join_commas (on_remove_layout layout s).selected_layouts]) ∧
    (∀ (v : List Str) (t : Str), v ≠ [] → (∀ x ∈ v, x ≠ [] ∧ ',' ∉ x) →
        layouts_str_loop 0 v [] ≠ ',' :: t ∧ layouts_str_loop 0 v [] ≠ t ++ [',']) ∧
    commands (run_ops State.init [LayoutOp.add 2, LayoutOp.add 3]).trace =
      ["hyprctl keyword input:kb_layout de".toList,
       "hyprctl keyword input:kb_layout de,fr".toList] ∧
    commands (run_ops State.init
        [LayoutOp.add 2, LayoutOp.add 3, LayoutOp.remove "de".toList]).trace =
      ["hyprctl keyword input:kb_layout de".toList,
       "hyprctl keyword input:kb_layout de,fr".toList,
       "hyprctl keyword input:kb_layout fr".toList] := by
  refine ⟨?_, ?_, ?_, by decide, by decide⟩
  rotate_left 2
  · intro v t hv hcodes
    rw [layouts_str_loop_eq_join]
    exact spec_join_commas_no_outer_comma v hv hcodes t
  · intro s row hchange hne
    have hlist := on_layout_selected_selected_layouts row s
    have hstep := on_layout_selected_some row s
    cases hrow : all_layouts[row]? with
    | none =>
      rw [hrow] at hlist
      exact absurd hlist hchange
    | some e =>
      rw [hrow] at hlist hstep
      by_cases hmem : e.code ∈ s.selected_layouts
      · simp only [hmem, if_true] at hlist
        exact absurd hlist hchange
      · simp only [hmem, if_false] at hlist hstep
        rw [hlist, hstep, apply_keyboard_layouts_of_ne_nil _ (by simp [State.emit])]
        simp [State.emit, commands_append, commands]
  · intro s layout hchange hne
    have hlist := on_remove_layout_selected_layouts layout s
    have hmem : layout ∈ s.selected_layouts := by
      by_contra hn
      exact hchange (by rw [hlist, List.erase_of_not_mem hn])
    rw [hlist] at hne
    rw [hlist, on_remove_layout_of_mem layout s hmem,
      apply_keyboard_layouts_of_ne_nil _ (by simpa [State.emit] using hne)]
    simp [State.emit, commands_append, commands]

/-- Witness for C8 amended: adding row 2 (`de`) to the empty list flushes
`de`. -/
theorem flush_is_comma_joined_witness :
    commands (on_layout_selected (some 2) State.init).trace =
      commands State.init.trace ++ ["hyprctl keyword input:kb_layout ".toList ++
        spec_join_commas (on_layout_selected (some 2) State.init).selected_layouts] :=
  flush_is_comma_joined.1 State.init 2 (by decide) (by decide)

/-- C8, as stated, fails: when the compositor reports `us,,fr` for
`input:kb_layout`, page construction loads the codes `us`, the empty string
and `fr`; removing `us` changes the list into a non-empty list and flushes
`,fr`, a value with a leading comma. -/
theorem flush_may_have_leading_comma :
    ¬ ∀ (popen : Popen) (s0 s : State) (layout value : Str),
        create_keyboard_page popen s0 = Except.ok s →
        (on_remove_layout layout s).selected_layouts ≠ s.selected_layouts →
        (on_remove_layout layout s).selected_layouts ≠ [] →
        commands (on_remove_layout layout s).trace =
          commands s.trace ++ ["hyprctl keyword input:kb_layout ".toList ++ value] →
        value = spec_join_commas (on_remove_layout layout s).selected_layouts ∧
        ∀ t : Str, value ≠ ',' :: t ∧ value ≠ t ++ [','] := by
  intro h
  have h1 := h (popen_kb_layout "str: us,,fr\nset: true\n".toList) State.init
    { selected_layouts := ["us".toList, [], "fr".toList], selected_modifier_index := 0,
      current_layout_switch_bind := [],
      trace := [Effect.refresh_layouts_list, Effect.refresh_keybinds_list] }
    "us".toList ",fr".toList (by decide) (by decide) (by decide) (by decide)
  exact (h1.2 "fr".toList).1 (by decide)

theorem load_keybind_state_selected_layouts (popen : Popen) (s s1 : State)
    (h : load_keybind_state popen s = Except.ok s1) :
    s1.selected_layouts = s.selected_layouts := by
  dsimp only [load_keybind_state] at h
  split at h
  · cases h; rfl
  · split at h
    · cases h
    · split at h <;> (cases h; rfl)

theorem getlines_nil (delim : Char) : getlines delim [] = [] := rfl

/-- The list that `create_keyboard_page` loads: the comma-separated segments
of the `input:kb_layout` value, each without its leading blanks, duplicates
included. -/
theorem create_keyboard_page_selected_layouts (popen : Popen) (s0 s : State)
    (h : create_keyboard_page popen s0 = Except.ok s) :
    s.selected_layouts =
      (getlines ',' (get_string_option popen "input:kb_layout".toList)).map
        erase_leading_blanks := by
  dsimp only [create_keyboard_page] at h
  split at h
  · cases h
  · next s1 h1 =>
    cases h
    have h2 := load_keybind_state_selected_layouts popen _ s1 h1
    show s1.selected_layouts = _
    rw [h2]
    dsimp only [load_selected_layouts]
    by_cases hstr : get_string_option popen "input:kb_layout".toList = []
    · simp only [hstr, ne_eq, not_true_eq_false, if_false]
      rfl
    · simp only [hstr, ne_eq, not_false_eq_true, if_true, List.nil_append]

theorem LayoutOp.run_nodup (op : LayoutOp) (s : State) (h : s.selected_layouts.Nodup) :
    (op.run s).selected_layouts.Nodup := by
  cases op with
  | add row =>
    show (on_layout_selected (some row) s).selected_layouts.Nodup
    rw [on_layout_selected_selected_layouts]
    cases all_layouts[row]? with
    | none => exact h
    | some e =>
      by_cases hmem : e.code ∈ s.selected_layouts
      · simpa [hmem] using h
      · simp only [hmem, if_false]
        rw [List.nodup_append]
        refine ⟨h, List.nodup_singleton _, ?_⟩
        intro a ha hb
        have : a = e.code := by simpa using hb
        exact hmem (this ▸ ha)
  | remove layout =>
    show (on_remove_layout layout s).selected_layouts.Nodup
    rw [on_remove_layout_selected_layouts]
    exact h.erase layout

/-- C9, as stated, fails: when the compositor reports `us,us` for
`input:kb_layout`, page construction loads the code `us` twice, so the state
reached by the empty sequence of operations already has a duplicate. -/
theorem create_keyboard_page_loads_duplicates :
    ¬ ∀ (popen : Popen) (s0 s : State) (ops : List LayoutOp),
        create_keyboard_page popen s0 = Except.ok s →
        (run_ops s ops).selected_layouts.Nodup := by
  intro h
  have h1 := h (popen_kb_layout "str: us,us\nset: true\n".toList) State.init
    { selected_layouts := ["us".toList, "us".toList], selected_modifier_index := 0,
      current_layout_switch_bind := [], trace := [Effect.refresh_layouts_list, Effect.refresh_keybinds_list] }
    [] (by decide)
  revert h1
  decide

/-- C9, amended: when the comma-separated segments of the `input:kb_layout`
value that page construction loads are pairwise distinct, every state reached
from the constructed page by any sequence of add and remove operations has a
list without duplicates. -/
theorem selected_layouts_nodup (popen : Popen) (s0 s : State) (ops : List LayoutOp)
    (hload : create_keyboard_page popen s0 = Except.ok s)
    (hnodup : ((getlines ',' (get_string_option popen "input:kb_layout".toList)).map
        erase_leading_blanks).Nodup) :
    (run_ops s ops).selected_layouts.Nodup := by
  have hs : s.selected_layouts.Nodup := by
    rw [create_keyboard_page_selected_layouts popen s0 s hload]; exact hnodup
  clear hload hnodup
  unfold run_ops
  induction ops generalizing s with
  | nil => exact hs
  | cons op ops ih => exact ih (op.run s) (op.run_nodup s hs)

/-- Witness for C9 amended: the page built from `us, de`, after adding row 2
(`de` again), adding row 3 (`fr`) and removing `us`. -/
theorem selected_layouts_nodup_witness :
    (run_ops
      { selected_layouts := ["us".toList, "de".toList], selected_modifier_index := 0,
        current_layout_switch_bind := [], trace := [Effect.refresh_layouts_list, Effect.refresh_keybinds_list] }
      [LayoutOp.add 2, LayoutOp.add 3, LayoutOp.remove "us".toList]).selected_layouts.Nodup :=
  selected_layouts_nodup (popen_kb_layout "str: us, de\nset: true\n".toList) State.init _ _
    (by decide) (by decide)

/-- C10: when the list contains `c`, `on_remove_layout` erases exactly the
first occurrence of `c`: the list splits as `pre ++ c :: post` with `c` not in
`pre`, and what is left is `pre ++ post`. -/
theorem on_remove_layout_first_occurrence (s : State) (c : Str)
    (h : c ∈ s.selected_layouts) :
    ∃ pre post : List Str,
      s.selected_layouts = pre ++ c :: post ∧ c ∉ pre ∧
      (on_remove_layout c s).selected_layouts = pre ++ post := by
  obtain ⟨pre, post, hpre, hsplit, herase⟩ := List.exists_erase_eq h
  exact ⟨pre, post, hsplit, hpre, by rw [on_remove_layout_selected_layouts, herase]⟩

/-- Witness for C10: removing `us` from `us, de, us` (as loaded from such a
compositor value). -/
theorem on_remove_layout_first_occurrence_witness :
    ∃ pre post : List Str,
      ["us".toList, "de".toList, "us".toList] = pre ++ "us".toList :: post ∧
      "us".toList ∉ pre ∧
      (on_remove_layout "us".toList
        { State.init with
          selected_layouts := ["us".toList, "de".toList, "us".toList] }).selected_layouts =
        pre ++ post :=
  on_remove_layout_first_occurrence
    { State.init with selected_layouts := ["us".toList, "de".toList, "us".toList] }
    "us".toList (by decide)

/-- C11: when row `row` of the add dialog carries a code that is not in the
list, `on_layout_selected` appends that code at the end: the list becomes
`xs ++ [c]`, the old elements in their order. -/
theorem on_layout_selected_appends (s : State) (row : Nat) (e : LayoutInfo)
    (hrow : all_layouts[row]? = some e) (hnew : e.code ∉ s.selected_layouts) :
    (on_layout_selected (some row) s).selected_layouts = s.selected_layouts ++ [e.code] := by
  rw [on_layout_selected_selected_layouts, hrow]
  simp only [hnew, if_false]

/-- Witness for C11: adding row 3 (`fr`) to the list `us, de`. -/
theorem on_layout_selected_appends_witness :
    (on_layout_selected (some 3)
      { State.init with selected_layouts := ["us".toList, "de".toList] }).selected_layouts =
      ["us".toList, "de".toList] ++ ["fr".toList] :=
  on_layout_selected_appends
    { State.init with selected_layouts := ["us".toList, "de".toList] } 3
    (LayoutInfo.mk "fr".toList "French".toList) (by decide) (by decide)

/-! ## Theorems on the key binding -/

/-- What `load_keybind_state` does once its loop has parsed `(modmask, k)`. -/
theorem load_keybind_state_of_parse (popen : Popen) (s : State) (modmask : Int) (k : Str)
    (hparse : load_keybind_loop (getlines '\n' (exec_output popen binds_query)) (0, []) =
      Except.ok (modmask, k)) :
    load_keybind_state popen s =
      Except.ok
        (if mod_str_of modmask ≠ [] ∧ k ≠ [] then
          { s with current_layout_switch_bind := mod_str_of modmask ++ ", ".toList ++ k }
         else { s with current_layout_switch_bind := [] }) := by
  unfold binds_query at hparse
  dsimp only [load_keybind_state]
  by_cases hout : exec_output popen
      "hyprctl binds | grep -B 4 \'arg: hyprctl switchxkblayout\'".toList = []
  · rw [hout] at hparse
    have h0 : load_keybind_loop (getlines '\n' []) (0, []) = Except.ok ((0 : Int), ([] : Str)) := rfl
    rw [h0] at hparse
    injection hparse with hparse
    injection hparse with hm hk
    subst hm hk
    simp only [hout, if_true]
    rfl
  · simp only [hout, if_false, hparse]
    split <;> rfl

theorem mod_str_of_spec (modmask : Int) (name : Str)
    (h : (modmask, name) ∈ spec_modmask_names) : mod_str_of modmask = name ∧ name ≠ [] := by
  simp only [spec_modmask_names, List.mem_cons, Prod.mk.injEq, List.mem_nil_iff, or_false] at h
  rcases h with h | h | h | h | h | h | h | h <;> obtain ⟨rfl, rfl⟩ := h <;> decide

theorem mod_str_of_unknown (modmask : Int)
    (h : modmask ∉ [1, 4, 8, 9, 12, 64, 65, 72]) : mod_str_of modmask = [] := by
  simp only [List.mem_cons, List.mem_nil_iff, or_false, not_or] at h
  obtain ⟨h1, h4, h8, h9, h12, h64, h65, h72⟩ := h
  simp only [mod_str_of, h1, h4, h8, h9, h12, h64, h65, h72, if_false]

/-- C12: when the loop of `load_keybind_state` parses from the binds output a
modmask listed by the specification (1, 4, 8, 64, 9, 12, 65, 72) and a
non-empty key `k`, the function returns normally and the tracked binding is
`NAME ++ ", " ++ k` with the name listed for that modmask. -/
theorem load_keybind_state_known_modmask (popen : Popen) (s : State) (modmask : Int)
    (name k : Str)
    (hparse : load_keybind_loop (getlines '\n' (exec_output popen binds_query)) (0, []) =
      Except.ok (modmask, k))
    (hname : (modmask, name) ∈ spec_modmask_names) (hk : k ≠ []) :
    load_keybind_state popen s =
      Except.ok { s with current_layout_switch_bind := name ++ ", ".toList ++ k } := by
  obtain ⟨hm, hne⟩ := mod_str_of_spec modmask name hname
  rw [load_keybind_state_of_parse popen s modmask k hparse, hm]
  simp only [ne_eq, hne, not_false_eq_true, hk, and_self, if_true]

/-- Witness for C12: a binds block with modmask 72 and key `space` is loaded
as `SUPER_ALT, space`. -/
theorem load_keybind_state_known_modmask_witness :
    load_keybind_state
      (fun _ => some "\tmodmask: 72\n\tsubmap: \n\tkey: space\n\tdispatcher: exec\n\targ: hyprctl switchxkblayout all next\n".toList)
      State.init =
      Except.ok { State.init with
        current_layout_switch_bind := "SUPER_ALT".toList ++ ", ".toList ++ "space".toList } :=
  load_keybind_state_known_modmask _ State.init 72 "SUPER_ALT".toList "space".toList
    (by decide) (by decide) (by decide)

/-- C13: when the modmask the loop of `load_keybind_state` parses from the
binds output is none of 1, 4, 8, 9, 12, 64, 65, 72, the function returns
normally with an empty tracked binding, whatever key was parsed. -/
theorem load_keybind_state_unknown_modmask (popen : Popen) (s : State) (modmask : Int)
    (k : Str)
    (hparse : load_keybind_loop (getlines '\n' (exec_output popen binds_query)) (0, []) =
      Except.ok (modmask, k))
    (hunknown : modmask ∉ [1, 4, 8, 9, 12, 64, 65, 72]) :
    load_keybind_state popen s = Except.ok { s with current_layout_switch_bind := [] } := by
  rw [load_keybind_state_of_parse popen s modmask k hparse, mod_str_of_unknown modmask hunknown]
  simp only [ne_eq, not_true_eq_false, false_and, if_false]

/-- Witness for C13: a binds block with modmask 5 (Ctrl+Shift) and key
`space` leaves the tracked binding empty, also when one was tracked before. -/
theorem load_keybind_state_unknown_modmask_witness :
    load_keybind_state
      (fun _ => some "\tmodmask: 5\n\tsubmap: \n\tkey: space\n\tdispatcher: exec\n\targ: hyprctl switchxkblayout all next\n".toList)
      { State.init with current_layout_switch_bind := "SUPER, grave".toList } =
      Except.ok { State.init with current_layout_switch_bind := [] } :=
  load_keybind_state_unknown_modmask _
    { State.init with current_layout_switch_bind := "SUPER, grave".toList } 5 "space".toList
    (by decide) (by decide)

/-- The body of `apply_layout_switch_keybind` past its three guards. -/
theorem apply_layout_switch_keybind_of_valid (s : State) (key : Str) (i : Nat) (M : Str)
    (hkey : key ≠ []) (hi : s.selected_modifier_index = (i : Int))
    (hM : modifiers[i]? = some M) :
    apply_layout_switch_keybind (some (some key)) s =
      { s with
        current_layout_switch_bind := M ++ ", ".toList ++ key
        trace :=
          (if s.current_layout_switch_bind ≠ [] then
            s.trace ++ [Effect.system ("hyprctl keyword unbind ".toList ++
              s.current_layout_switch_bind)]
           else s.trace) ++
          [Effect.system ("hyprctl keyword bind ".toList ++ M ++ ", ".toList ++ key ++
            ", exec, hyprctl switchxkblayout all next".toList)] } := by
  have hlt : i < 8 := by
    by_contra hge
    have hnone : modifiers[i]? = none := List.getElem?_eq_none (by simpa [modifiers] using hge)
    rw [hnone] at hM
    cases hM
  have hguard : ¬ (s.selected_modifier_index < 0 ∨ s.selected_modifier_index ≥ 8) := by
    rw [hi]; omega
  have hget : modifiers.getD s.selected_modifier_index.toNat [] = M := by
    rw [hi, Int.toNat_natCast, List.getD_eq_getElem?_getD, hM]
    rfl
  have hget2 : modifiers[s.selected_modifier_index.toNat]?.getD [] = M := by
    rw [← List.getD_eq_getElem?_getD]; exact hget
  dsimp only [apply_layout_switch_keybind]
  simp only [hkey, if_false, hguard, hget]
  by_cases hold : s.current_layout_switch_bind = []
  · simp [hold, execute_hyprctl_bind, State.emit, hget2]
  · simp [hold, execute_hyprctl_bind, State.emit, hget2]

/-- C14: with a non-empty tracked binding `old`, a non-empty key and a
modifier index in `[0,8)`, `apply_layout_switch_keybind` issues exactly two
commands, first `hyprctl keyword unbind ` followed by `old`, then the bind
command for the new modifier and key. -/
theorem apply_layout_switch_keybind_rebinds (s : State) (key : Str) (i : Nat) (M : Str)
    (hold : s.current_layout_switch_bind ≠ []) (hkey : key ≠ [])
    (hi : s.selected_modifier_index = (i : Int)) (hM : modifiers[i]? = some M) :
    (apply_layout_switch_keybind (some (some key)) s).trace =
      s.trace ++
        [Effect.system ("hyprctl keyword unbind ".toList ++ s.current_layout_switch_bind),
         Effect.system ("hyprctl keyword bind ".toList ++ M ++ ", ".toList ++ key ++
           ", exec, hyprctl switchxkblayout all next".toList)] := by
  rw [apply_layout_switch_keybind_of_valid s key i M hkey hi hM]
  simp [hold]

/-- Witness for C14: with `SUPER, grave` tracked, applying index 7 and the
key `space` unbinds `SUPER, grave` and binds `SUPER_ALT, space`. -/
theorem apply_layout_switch_keybind_rebinds_witness :
    (apply_layout_switch_keybind (some (some "space".toList))
      { State.init with
        selected_modifier_index := 7
        current_layout_switch_bind := "SUPER, grave".toList }).trace =
      [] ++
        [Effect.system ("hyprctl keyword unbind ".toList ++ "SUPER, grave".toList),
         Effect.system ("hyprctl keyword bind ".toList ++ "SUPER_ALT".toList ++ ", ".toList ++
           "space".toList ++ ", exec, hyprctl switchxkblayout all next".toList)] :=
  apply_layout_switch_keybind_rebinds
    { State.init with
      selected_modifier_index := 7
      current_layout_switch_bind := "SUPER, grave".toList }
    "space".toList 7 "SUPER_ALT".toList (by decide) (by decide) rfl (by decide)

/-- C15: from the unbound state, with a non-empty key `k` and a modifier index
`i` in `[0,8)`, `apply_layout_switch_keybind` issues exactly one command,
`hyprctl keyword bind M, k, exec, hyprctl switchxkblayout all next` with `M`
the `i`-th of SUPER, ALT, CTRL, SHIFT, SUPER_SHIFT, ALT_SHIFT, CTRL_ALT,
SUPER_ALT; it issues no unbind and the tracked binding becomes `M, k`. -/
theorem apply_layout_switch_keybind_from_unbound (s : State) (k : Str) (i : Nat) (M : Str)
    (hunbound : s.current_layout_switch_bind = []) (hkey : k ≠ [])
    (hi : s.selected_modifier_index = (i : Int))
    (hM : ["SUPER".toList, "ALT".toList, "CTRL".toList, "SHIFT".toList, "SUPER_SHIFT".toList,
      "ALT_SHIFT".toList, "CTRL_ALT".toList, "SUPER_ALT".toList][i]? = some M) :
    apply_layout_switch_keybind (some (some k)) s =
      { s with
        current_layout_switch_bind := M ++ ", ".toList ++ k
        trace := s.trace ++
          [Effect.system ("hyprctl keyword bind ".toList ++ M ++ ", ".toList ++ k ++
            ", exec, hyprctl switchxkblayout all next".toList)] } := by
  rw [apply_layout_switch_keybind_of_valid s k i M hkey hi hM]
  simp [hunbound]

/-- Witness for C15: from the initial state (index 0, nothing tracked) the key
`space` is bound as `SUPER, space`. -/
theorem apply_layout_switch_keybind_from_unbound_witness :
    apply_layout_switch_keybind (some (some "space".toList)) State.init =
      { State.init with
        current_layout_switch_bind := "SUPER".toList ++ ", ".toList ++ "space".toList
        trace := State.init.trace ++
          [Effect.system ("hyprctl keyword bind ".toList ++ "SUPER".toList ++ ", ".toList ++
            "space".toList ++ ", exec, hyprctl switchxkblayout all next".toList)] } :=
  apply_layout_switch_keybind_from_unbound State.init "space".toList 0 "SUPER".toList
    rfl (by decide) rfl (by decide)

/-- C16: when the key entry text is empty, or the selected modifier index is
outside `[0,8)`, `apply_layout_switch_keybind` issues no command and leaves
the tracked binding and the rest of the state as they were.  The last part
takes the index as `on_modifier_changed` stores it from the combo row. -/
theorem apply_layout_switch_keybind_guards (s : State) (key_entry : Option (Option Str)) :
    (key_entry = some (some []) → apply_layout_switch_keybind key_entry s = s) ∧
    (s.selected_modifier_index < 0 ∨ s.selected_modifier_index ≥ 8 →
        apply_layout_switch_keybind key_entry s = s) ∧
    (∀ selected : Nat, 8 ≤ selected → selected < 4294967296 →
        apply_layout_switch_keybind key_entry (on_modifier_changed selected s) =
          on_modifier_changed selected s) := by
  have hidx : ∀ t : State, (t.selected_modifier_index < 0 ∨ t.selected_modifier_index ≥ 8) →
      apply_layout_switch_keybind key_entry t = t := by
    intro t h
    unfold apply_layout_switch_keybind
    split
    · rfl
    · rfl
    · split
      · rfl
      · simp only [h, if_true]
  refine ⟨?_, hidx s, ?_⟩
  · intro h
    subst h
    simp [apply_layout_switch_keybind]
  · intro selected h8 h32
    apply hidx
    simp only [on_modifier_changed]
    split <;> omega

/-- Witness for C16: with the empty text, with index 8, and with the index
that `GTK_INVALID_LIST_POSITION` leaves, nothing happens. -/
theorem apply_layout_switch_keybind_guards_witness :
    apply_layout_switch_keybind (some (some [])) State.init = State.init ∧
    apply_layout_switch_keybind (some (some "space".toList))
      { State.init with selected_modifier_index := 8 } =
      { State.init with selected_modifier_index := 8 } ∧
    apply_layout_switch_keybind (some (some "space".toList))
      (on_modifier_changed 4294967295 State.init) = on_modifier_changed 4294967295 State.init :=
  ⟨(apply_layout_switch_keybind_guards State.init (some (some []))).1 rfl,
   (apply_layout_switch_keybind_guards { State.init with selected_modifier_index := 8 }
      (some (some "space".toList))).2.1 (Or.inr (by decide)),
   (apply_layout_switch_keybind_guards State.init (some (some "space".toList))).2.2
      4294967295 (by decide) (by decide)⟩

/-- C17: with a non-empty tracked binding `b`, `on_remove_keybind` issues
exactly one command, `hyprctl keyword unbind ` followed by `b`, and empties the
tracked binding (it then refreshes the key binding list); with an empty
tracked binding it does nothing. -/
theorem on_remove_keybind_spec (s : State) :
    (s.current_layout_switch_bind ≠ [] →
        on_remove_keybind s =
          { s with
            current_layout_switch_bind := []
            trace := s.trace ++
              [Effect.system ("hyprctl keyword unbind ".toList ++ s.current_layout_switch_bind),
               Effect.refresh_keybinds_list] }) ∧
    (s.current_layout_switch_bind = [] → on_remove_keybind s = s) := by
  constructor
  · intro h
    simp [on_remove_keybind, h, execute_hyprctl_bind, State.emit]
  · intro h
    simp [on_remove_keybind, h]

/-- Witness for C17: removing the tracked `SUPER, space`. -/
theorem on_remove_keybind_spec_witness :
    on_remove_keybind { State.init with current_layout_switch_bind := "SUPER, space".toList } =
      { State.init with
        current_layout_switch_bind := []
        trace := [] ++
          [Effect.system ("hyprctl keyword unbind ".toList ++ "SUPER, space".toList),
           Effect.refresh_keybinds_list] } ∧
    on_remove_keybind State.init = State.init :=
  ⟨(on_remove_keybind_spec
      { State.init with current_layout_switch_bind := "SUPER, space".toList }).1 (by decide),
   (on_remove_keybind_spec State.init).2 rfl⟩

/-! ## Theorems on the list refresh and the combo handlers -/

/-- The function `apply_keyboard_layouts` makes one call of `std::system` and
nothing else. -/
theorem apply_keyboard_layouts_emits (t : State) :
    ∃ cmd : Str, apply_keyboard_layouts t = t.emit (Effect.system cmd) := by
  unfold apply_keyboard_layouts execute_hyprctl
  split
  · exact ⟨_, rfl⟩
  · exact ⟨_, rfl⟩

/-- C18, as stated, fails: adding row 2 (`de`) to the empty list calls
`refresh_layouts_list()` inside the handler and schedules nothing, so it is
not true that every successful add defers the rebuild and every successful
remove runs it inside the handler. -/
theorem refresh_scheduling_not_as_stated :
    ¬ ((∀ (s : State) (row : Nat) (e : LayoutInfo), all_layouts[row]? = some e →
          e.code ∉ s.selected_layouts →
          Effect.g_idle_add_deferred_refresh_layouts ∈
            new_effects s (on_layout_selected (some row) s) ∧
          Effect.refresh_layouts_list ∉ new_effects s (on_layout_selected (some row) s)) ∧
       (∀ (s : State) (layout : Str), layout ∈ s.selected_layouts →
          Effect.refresh_layouts_list ∈ new_effects s (on_remove_layout layout s) ∧
          Effect.g_idle_add_deferred_refresh_layouts ∉
            new_effects s (on_remove_layout layout s))) := by
  intro h
  have h1 := h.1 State.init 2 (LayoutInfo.mk "de".toList "German".toList) (by decide) (by decide)
  revert h1
  decide

/-- C18, amended: a successful add runs the rebuild inside the handler, by a
direct call of `refresh_layouts_list()` before the flush, and schedules no
idle callback; a successful remove hands the rebuild to `g_idle_add`, before
the flush, and does not run it inside the handler. -/
theorem refresh_scheduling (s : State) :
    (∀ (row : Nat) (e : LayoutInfo), all_layouts[row]? = some e →
        e.code ∉ s.selected_layouts →
        ∃ cmd : Str,
          new_effects s (on_layout_selected (some row) s) =
            [Effect.refresh_layouts_list, Effect.system cmd, Effect.adw_dialog_close]) ∧
    (∀ layout : Str, layout ∈ s.selected_layouts →
        ∃ cmd : Str,
          new_effects s (on_remove_layout layout s) =
            [Effect.g_idle_add_deferred_refresh_layouts, Effect.system cmd]) := by
  constructor
  · intro row e hrow hnew
    refine ⟨"hyprctl keyword input:kb_layout ".toList ++
      spec_join_commas (s.selected_layouts ++ [e.code]), ?_⟩
    rw [on_layout_selected_some, hrow]
    simp only [hnew, if_false]
    rw [apply_keyboard_layouts_of_ne_nil _ (by simp [State.emit])]
    simp [new_effects, State.emit]
  · intro layout hmem
    rw [on_remove_layout_of_mem layout s hmem]
    obtain ⟨cmd, hcmd⟩ := apply_keyboard_layouts_emits
      (State.emit { s with selected_layouts := s.selected_layouts.erase layout }
        Effect.g_idle_add_deferred_refresh_layouts)
    rw [hcmd]
    exact ⟨cmd, by simp [new_effects, State.emit]⟩

/-- Witness for C18 amended: adding row 2 (`de`) to the empty list, and
removing `de` from the list `de`. -/
theorem refresh_scheduling_witness :
    (∃ cmd : Str,
      new_effects State.init (on_layout_selected (some 2) State.init) =
        [Effect.refresh_layouts_list, Effect.system cmd, Effect.adw_dialog_close]) ∧
    (∃ cmd : Str,
      new_effects { State.init with selected_layouts := ["de".toList] }
        (on_remove_layout "de".toList { State.init with selected_layouts := ["de".toList] }) =
        [Effect.g_idle_add_deferred_refresh_layouts, Effect.system cmd]) :=
  ⟨(refresh_scheduling State.init).1 2 (LayoutInfo.mk "de".toList "German".toList)
      (by decide) (by decide),
   (refresh_scheduling { State.init with selected_layouts := ["de".toList] }).2 "de".toList
      (by decide)⟩

/-- C19, the failing inputs: `load_keybind_state` does not complete on a binds
output with a line that ends right after `key:`, be it a cut `key:` line or
the `arg:` line of a binding whose command ends in `key:`; the `substr` of
that line throws `std::out_of_range` outside any `try`.  The same cut after
`modmask:` is caught and the function returns. -/
theorem load_keybind_state_key_line_throws :
    load_keybind_state
      (fun _ => some "\tmodmask: 64\n\tsubmap: \n\tkey:\n\tkeycode: 61\n\tdispatcher: exec\n\targ: hyprctl switchxkblayout all next\n".toList)
      State.init = Except.error Exn.out_of_range ∧
    load_keybind_state
      (fun _ => some "\tmodmask: 64\n\tsubmap: \n\tkey: space\n\tdispatcher: exec\n\targ: hyprctl switchxkblayout all next; echo key:\n".toList)
      State.init = Except.error Exn.out_of_range ∧
    load_keybind_state
      (fun _ => some "\tmodmask:\n\tsubmap: \n\tkey: space\n\tkeycode: 0\n\tdispatcher: exec\n\targ: hyprctl switchxkblayout all next\n".toList)
      State.init = Except.ok State.init := by
  decide

/-- C20, as stated, fails: index 4 is outside the four follow-mouse options,
yet `on_follow_mouse_changed` issues `hyprctl keyword input:follow_mouse 4`. -/
theorem combo_handlers_not_all_guarded :
    ¬ ∀ (s : State) (selected : Nat), selected < 4294967296 →
        (accel_options.length ≤ selected →
          commands (on_accel_profile_changed selected s).trace = commands s.trace) ∧
        (scroll_options.length ≤ selected →
          commands (on_scroll_method_changed selected s).trace = commands s.trace) ∧
        (follow_options.length ≤ selected →
          commands (on_follow_mouse_changed selected s).trace = commands s.trace) ∧
        (click_options.length ≤ selected →
          commands (on_clickfinger_behavior_changed selected s).trace = commands s.trace) ∧
        (fingers_options.length ≤ selected →
          commands (on_workspace_swipe_fingers_changed selected s).trace =
            commands s.trace) := by
  intro h
  have h1 := (h State.init 4 (by decide)).2.2.1 (by decide)
  revert h1
  decide

/-- C20, amended: in the acceleration-profile and the scroll-method handler a
selected index outside the option list issues no command.  The follow-mouse,
clickfinger and swipe-fingers handlers have no bounds check: for every index
they issue one command whose value is the index in decimal (the index plus 3
modulo `2^32` for the swipe fingers). -/
theorem combo_handlers_out_of_range (s : State) (selected : Nat) :
    (accel_options.length ≤ selected → on_accel_profile_changed selected s = s) ∧
    (scroll_options.length ≤ selected → on_scroll_method_changed selected s = s) ∧
    on_follow_mouse_changed selected s =
      s.emit (Effect.system ("hyprctl keyword input:follow_mouse ".toList ++
        to_string_unsigned selected)) ∧
    on_clickfinger_behavior_changed selected s =
      s.emit (Effect.system ("hyprctl keyword input:touchpad:clickfinger_behavior ".toList ++
        to_string_unsigned selected)) ∧
    on_workspace_swipe_fingers_changed selected s =
      s.emit (Effect.system ("hyprctl keyword gestures:workspace_swipe_fingers ".toList ++
        to_string_unsigned ((selected + 3) % 4294967296))) := by
  refine ⟨?_, ?_, rfl, rfl, rfl⟩
  · intro h
    have h3 : ¬ (selected > 0 ∧ selected < 3) := by
      simp only [accel_options, List.length_cons, List.length_nil] at h
      omega
    simp only [on_accel_profile_changed, h3, if_false]
  · intro h
    have h5 : ¬ (selected > 0 ∧ selected < 5) := by
      simp only [scroll_options, List.length_cons, List.length_nil] at h
      omega
    simp only [on_scroll_method_changed, h5, if_false]

/-- Witness for C20 amended: index 3 on the acceleration-profile row and
index 5 on the scroll-method row. -/
theorem combo_handlers_out_of_range_witness :
    on_accel_profile_changed 3 State.init = State.init ∧
    on_scroll_method_changed 5 State.init = State.init :=
  ⟨(combo_handlers_out_of_range State.init 3).1 (by decide),
   (combo_handlers_out_of_range State.init 5).2.1 (by decide)⟩

/-! ## Theorems on the round trip of the layout list -/

theorem apply_layout_switch_keybind_skip (key_entry : Option (Option Str)) (s : State)
    (h : key_entry = some (some []) ∨ s.selected_modifier_index < 0 ∨
      s.selected_modifier_index ≥ 8) :
    apply_layout_switch_keybind key_entry s = s := by
  rcases h with rfl | h
  · simp [apply_layout_switch_keybind]
  · unfold apply_layout_switch_keybind
    split
    · rfl
    · rfl
    · split
      · rfl
      · simp only [h, if_true]

theorem on_remove_keybind_bound (s : State) (h : s.current_layout_switch_bind ≠ []) :
    on_remove_keybind s =
      { s with
        current_layout_switch_bind := []
        trace := s.trace ++
          [Effect.system ("hyprctl keyword unbind ".toList ++ s.current_layout_switch_bind),
           Effect.refresh_keybinds_list] } := by
  simp [on_remove_keybind, h, execute_hyprctl_bind, State.emit]

theorem on_remove_keybind_unbound (s : State) (h : s.current_layout_switch_bind = []) :
    on_remove_keybind s = s := by
  simp [on_remove_keybind, h]

theorem mod_str_of_mem (modmask : Int) (h : mod_str_of modmask ≠ []) :
    mod_str_of modmask ∈ modifiers := by
  unfold mod_str_of at h ⊢
  split_ifs at h ⊢ <;> first | decide | exact absurd rfl h

/-- What `load_keybind_state` returns has a tracked binding of the specified
form. -/
theorem load_keybind_state_form (popen : Popen) (s0 s : State)
    (h : load_keybind_state popen s0 = Except.ok s) :
    spec_binding_form s.current_layout_switch_bind := by
  dsimp only [load_keybind_state] at h
  split at h
  · cases h
    exact Or.inl rfl
  · split at h
    · cases h
    · next modmask key_code _ =>
      split at h
      · next hboth =>
        cases h
        exact Or.inr ⟨mod_str_of modmask, key_code, mod_str_of_mem modmask hboth.1, hboth.2, rfl⟩
      · cases h
        exact Or.inl rfl

/-- The three guards of `apply_layout_switch_keybind` read as one condition:
either the call changes nothing, or there is a non-empty key and an index
below 8 and the body runs. -/
theorem apply_layout_switch_keybind_cases (key_entry : Option (Option Str)) (s : State) :
    apply_layout_switch_keybind key_entry s = s ∨
    ∃ (key : Str) (i : Nat) (M : Str), key_entry = some (some key) ∧ key ≠ [] ∧
      s.selected_modifier_index = (i : Int) ∧ modifiers[i]? = some M := by
  rcases key_entry with _ | _ | key
  · exact Or.inl rfl
  · exact Or.inl rfl
  · by_cases hkey : key = []
    · exact Or.inl (apply_layout_switch_keybind_skip _ s (Or.inl (by rw [hkey])))
    · by_cases hidx : s.selected_modifier_index < 0 ∨ s.selected_modifier_index ≥ 8
      · exact Or.inl (apply_layout_switch_keybind_skip _ s (Or.inr hidx))
      · right
        have h0 : 0 ≤ s.selected_modifier_index := by omega
        have h8 : s.selected_modifier_index.toNat < 8 := by omega
        have hlen : s.selected_modifier_index.toNat < modifiers.length := by
          simpa [modifiers] using h8
        exact ⟨key, s.selected_modifier_index.toNat, modifiers[s.selected_modifier_index.toNat],
          rfl, hkey, (Int.toNat_of_nonneg h0).symm, List.getElem?_eq_getElem hlen⟩

theorem KeybindOp.run_form (op : KeybindOp) (s : State)
    (h : spec_binding_form s.current_layout_switch_bind) :
    spec_binding_form (op.run s).current_layout_switch_bind := by
  cases op with
  | modifier_changed selected => exact h
  | apply key_entry =>
    show spec_binding_form (apply_layout_switch_keybind key_entry s).current_layout_switch_bind
    rcases apply_layout_switch_keybind_cases key_entry s with hsame | ⟨key, i, M, rfl, hkey, hi, hM⟩
    · rw [hsame]; exact h
    · rw [apply_layout_switch_keybind_of_valid s key i M hkey hi hM]
      exact Or.inr ⟨M, key, List.getElem?_mem hM, hkey, rfl⟩
  | remove =>
    show spec_binding_form (on_remove_keybind s).current_layout_switch_bind
    by_cases hb : s.current_layout_switch_bind = []
    · rw [on_remove_keybind_unbound s hb]; exact h
    · rw [on_remove_keybind_bound s hb]; exact Or.inl rfl

/-- C22: in every state reached from a completed `load_keybind_state` by any
sequence of apply and remove actions (and changes of the modifier row), the
tracked binding is empty or `NAME, key` with `NAME` one of the eight modifier
names and `key` non-empty. -/
theorem tracked_binding_form (popen : Popen) (s0 s : State) (ops : List KeybindOp)
    (hload : load_keybind_state popen s0 = Except.ok s) :
    spec_binding_form (run_keybind_ops s ops).current_layout_switch_bind := by
  have hs := load_keybind_state_form popen s0 s hload
  clear hload
  unfold run_keybind_ops
  induction ops generalizing s with
  | nil => exact hs
  | cons op ops ih => exact ih (op.run s) (op.run_form s hs)

/-- Witness for C22: a binding `SUPER, space` is loaded, then `Tab` is applied
with modifier 6 and the binding is removed again. -/
theorem tracked_binding_form_witness :
    spec_binding_form
      (run_keybind_ops
        { State.init with current_layout_switch_bind := "SUPER, space".toList }
        [KeybindOp.modifier_changed 6, KeybindOp.apply (some (some "Tab".toList)),
         KeybindOp.remove]).current_layout_switch_bind :=
  tracked_binding_form
    (fun _ => some "\tmodmask: 64\n\tsubmap: \n\tkey: space\n\tdispatcher: exec\n\targ: hyprctl switchxkblayout all next\n".toList)
    State.init _ _ (by decide)

theorem spec_bind_command_injective (b c : Str)
    (h : spec_bind_command b = spec_bind_command c) : b = c := by
  unfold spec_bind_command at h
  rw [List.append_assoc, List.append_assoc] at h
  exact List.append_cancel_right (List.append_cancel_left h)

theorem spec_unbind_ne_bind (b c : Str) : spec_unbind_command b ≠ spec_bind_command c := by
  intro h
  have h17 : (spec_unbind_command b)[16]? = (spec_bind_command c)[16]? := by rw [h]
  simp [spec_unbind_command, spec_bind_command] at h17

theorem spec_paired_commands_close (closed : List Str) (t : Str) (ht : t ≠ []) :
    spec_paired_commands closed t ++ [spec_unbind_command t] =
      spec_paired_commands (closed ++ [t]) [] := by
  induction closed with
  | nil => simp [spec_paired_commands, ht]
  | cons b closed ih => simp [spec_paired_commands, ih]

theorem spec_paired_commands_open (closed : List Str) (t : Str) (ht : t ≠ []) :
    spec_paired_commands closed [] ++ [spec_bind_command t] = spec_paired_commands closed t := by
  induction closed with
  | nil => simp [spec_paired_commands, ht]
  | cons b closed ih => simp [spec_paired_commands, ih]

/-- In a paired trace every bind that is not the last command is directly
followed by the unbind of the same string. -/
theorem spec_paired_commands_adjacent (closed : List Str) (t : Str) :
    ∀ (pre : List Str) (b c : Str) (rest : List Str),
      spec_paired_commands closed t = pre ++ spec_bind_command b :: c :: rest →
      c = spec_unbind_command b := by
  induction closed with
  | nil =>
    intro pre b c rest h
    have hlen := congrArg List.length h
    by_cases ht : t = []
    · simp [spec_paired_commands, ht] at hlen
      omega
    · simp [spec_paired_commands, ht] at hlen
      omega
  | cons b0 closed ih =>
    intro pre b c rest h
    rw [spec_paired_commands] at h
    match pre, h with
    | [], h =>
      simp only [List.nil_append, List.cons.injEq] at h
      obtain ⟨hb, hc, _⟩ := h
      rw [← hc, spec_bind_command_injective b0 b hb]
    | [x], h =>
      simp only [List.cons_append, List.nil_append, List.cons.injEq] at h
      exact absurd h.2.1 (spec_unbind_ne_bind b0 b)
    | x :: y :: pre, h =>
      simp only [List.cons_append, List.cons.injEq] at h
      exact ih pre b c rest h.2.2

theorem KeybindOp.run_paired (base : List Str) (op : KeybindOp) (s : State)
    (h : paired_from base s) : paired_from base (op.run s) := by
  obtain ⟨closed, hc⟩ := h
  cases op with
  | modifier_changed selected => exact ⟨closed, hc⟩
  | apply key_entry =>
    show paired_from base
      ((apply_layout_switch_keybind key_entry s).emit Effect.refresh_keybinds_list)
    rcases apply_layout_switch_keybind_cases key_entry s with hsame | ⟨key, i, M, rfl, hkey, hi, hM⟩
    · rw [hsame]
      exact ⟨closed, by simpa [State.emit, commands_append, commands] using hc⟩
    · rw [apply_layout_switch_keybind_of_valid s key i M hkey hi hM]
      have hnew : M ++ ", ".toList ++ key ≠ [] := by simp
      have hbind : "hyprctl keyword bind ".toList ++ M ++ ", ".toList ++ key ++
          ", exec, hyprctl switchxkblayout all next".toList =
          spec_bind_command (M ++ ", ".toList ++ key) := by
        simp [spec_bind_command]
      by_cases hold : s.current_layout_switch_bind = []
      · refine ⟨closed, ?_⟩
        rw [hold] at hc
        simp only [State.emit, hold, ne_eq, not_true_eq_false, if_false, commands_append, hc,
          hbind, commands, List.append_nil]
        rw [List.append_assoc, spec_paired_commands_open closed _ hnew]
      · refine ⟨closed ++ [s.current_layout_switch_bind], ?_⟩
        simp only [State.emit, hold, ne_eq, not_false_eq_true, if_true, commands_append, hc,
          hbind, commands, List.append_nil]
        rw [← spec_paired_commands_open _ _ hnew, ← spec_paired_commands_close closed _ hold]
        simp [spec_unbind_command]
  | remove =>
    show paired_from base (on_remove_keybind s)
    by_cases hold : s.current_layout_switch_bind = []
    · rw [on_remove_keybind_unbound s hold]
      exact ⟨closed, hc⟩
    · rw [on_remove_keybind_bound s hold]
      refine ⟨closed ++ [s.current_layout_switch_bind], ?_⟩
      simp only [commands_append, hc, commands, List.append_nil]
      rw [← spec_paired_commands_close closed _ hold]
      simp [spec_unbind_command]

/-- C23: from an unbound state, the commands that any sequence of apply and
remove actions issues form a paired trace: bind `b1`, unbind `b1`, bind `b2`,
unbind `b2`, and so on, ending with one bind of the tracked binding when one
is tracked.  So every bind command that is followed by another command is
directly followed by the unbind of the same modifier-and-key string, and at
most the last bind has no matching unbind. -/
theorem keybind_commands_paired (s0 : State) (ops : List KeybindOp)
    (hunbound : s0.current_layout_switch_bind = []) :
    ∃ (cmds closed : List Str),
      commands (run_keybind_ops s0 ops).trace = commands s0.trace ++ cmds ∧
      cmds = spec_paired_commands closed (run_keybind_ops s0 ops).current_layout_switch_bind ∧
      ∀ (pre : List Str) (b c : Str) (rest : List Str),
        cmds = pre ++ spec_bind_command b :: c :: rest → c = spec_unbind_command b := by
  have h0 : paired_from (commands s0.trace) s0 :=
    ⟨[], by simp [hunbound, spec_paired_commands]⟩
  have hrun : ∀ (ops : List KeybindOp) (s : State), paired_from (commands s0.trace) s →
      paired_from (commands s0.trace) (run_keybind_ops s ops) := by
    intro ops
    induction ops with
    | nil => intro s hs; exact hs
    | cons op ops ih => intro s hs; exact ih (op.run s) (op.run_paired _ s hs)
  obtain ⟨closed, hc⟩ := hrun ops s0 h0
  exact ⟨_, closed, hc, rfl, spec_paired_commands_adjacent closed _⟩

/-- Witness for C23: applying `space` with SUPER, then `Tab` with ALT, then
removing, from the initial state. -/
theorem keybind_commands_paired_witness :
    ∃ (cmds closed : List Str),
      commands (run_keybind_ops State.init
        [KeybindOp.apply (some (some "space".toList)), KeybindOp.modifier_changed 1,
         KeybindOp.apply (some (some "Tab".toList)), KeybindOp.remove]).trace =
        commands State.init.trace ++ cmds ∧
      cmds = spec_paired_commands closed
        (run_keybind_ops State.init
          [KeybindOp.apply (some (some "space".toList)), KeybindOp.modifier_changed 1,
           KeybindOp.apply (some (some "Tab".toList)),
           KeybindOp.remove]).current_layout_switch_bind ∧
      ∀ (pre : List Str) (b c : Str) (rest : List Str),
        cmds = pre ++ spec_bind_command b :: c :: rest → c = spec_unbind_command b :=
  keybind_commands_paired State.init _ rfl

/-! ## Theorems on flushes, modifier names and the table -/

theorem apply_keyboard_layouts_flush (t : State) :
    ∃ value : Str,
      apply_keyboard_layouts t =
        t.emit (Effect.system ("hyprctl keyword input:kb_layout ".toList ++ value)) := by
  unfold apply_keyboard_layouts execute_hyprctl
  split
  · exact ⟨"us".toList, rfl⟩
  · exact ⟨layouts_str_loop 0 t.selected_layouts [], rfl⟩

/-- Each layout action either leaves the list and the commands as they were,
or changes the list and issues exactly one flush. -/
theorem LayoutOp.run_cases (op : LayoutOp) (s : State) :
    ((op.run s).selected_layouts = s.selected_layouts ∧
      commands (op.run s).trace = commands s.trace) ∨
    ((op.run s).selected_layouts ≠ s.selected_layouts ∧
      ∃ value : Str, commands (op.run s).trace =
        commands s.trace ++ ["hyprctl keyword input:kb_layout ".toList ++ value]) := by
  cases op with
  | add row =>
    have hrun : (LayoutOp.add row).run s = on_layout_selected (some row) s := rfl
    rw [hrun]
    have hlist := on_layout_selected_selected_layouts row s
    have hstep := on_layout_selected_some row s
    cases hrow : all_layouts[row]? with
    | none =>
      rw [hrow] at hlist hstep
      exact Or.inl ⟨hlist, by rw [hstep]; simp [State.emit, commands_append, commands]⟩
    | some e =>
      rw [hrow] at hlist hstep
      by_cases hmem : e.code ∈ s.selected_layouts
      · simp only [hmem, if_true] at hlist hstep
        exact Or.inl ⟨hlist, by rw [hstep]; simp [State.emit, commands_append, commands]⟩
      · simp only [hmem, if_false] at hlist hstep
        right
        constructor
        · rw [hlist]
          intro h
          have := congrArg List.length h
          simp at this
        · obtain ⟨value, hv⟩ := apply_keyboard_layouts_flush
            (State.emit { s with selected_layouts := s.selected_layouts ++ [e.code] }
              Effect.refresh_layouts_list)
          exact ⟨value, by
            rw [hstep, hv]; simp [State.emit, commands_append, commands]⟩
  | remove layout =>
    have hrun : (LayoutOp.remove layout).run s = on_remove_layout layout s := rfl
    rw [hrun]
    by_cases hmem : layout ∈ s.selected_layouts
    · right
      constructor
      · rw [on_remove_layout_selected_layouts]
        intro h
        exact (List.erase_eq_self_iff.mp h) hmem
      · obtain ⟨value, hv⟩ := apply_keyboard_layouts_flush
          (State.emit { s with selected_layouts := s.selected_layouts.erase layout }
            Effect.g_idle_add_deferred_refresh_layouts)
        exact ⟨value, by
          rw [on_remove_layout_of_mem layout s hmem, hv]
          simp [State.emit, commands_append, commands]⟩
    · left
      have hf : std_find s.selected_layouts layout = s.selected_layouts.length :=
        (std_find_eq_length_iff _ _).2 hmem
      have hsame : on_remove_layout layout s = s := by
        simp [on_remove_layout, hf]
      rw [hsame]
      exact ⟨rfl, rfl⟩

/-- C24: an add of a code that is already in the list issues no command and
leaves the list unchanged, a remove of a code that is not in the list changes
nothing at all, and for every add or remove a command is issued exactly when
the list changes; it is then one flush to `input:kb_layout`. -/
theorem flush_iff_list_changes (s : State) :
    (∀ (row : Nat) (e : LayoutInfo), all_layouts[row]? = some e →
        e.code ∈ s.selected_layouts →
        (on_layout_selected (some row) s).selected_layouts = s.selected_layouts ∧
        commands (on_layout_selected (some row) s).trace = commands s.trace) ∧
    (∀ layout : Str, layout ∉ s.selected_layouts → on_remove_layout layout s = s) ∧
    (∀ op : LayoutOp,
        (commands (op.run s).trace ≠ commands s.trace ↔
          (op.run s).selected_layouts ≠ s.selected_layouts) ∧
        ((op.run s).selected_layouts ≠ s.selected_layouts →
          ∃ value : Str, commands (op.run s).trace =
            commands s.trace ++ ["hyprctl keyword input:kb_layout ".toList ++ value])) := by
  refine ⟨?_, ?_, ?_⟩
  · intro row e hrow hmem
    have hlist := on_layout_selected_selected_layouts row s
    have hstep := on_layout_selected_some row s
    rw [hrow] at hlist hstep
    simp only [hmem, if_true] at hlist hstep
    exact ⟨hlist, by rw [hstep]; simp [State.emit, commands_append, commands]⟩
  · intro layout hmem
    have hf : std_find s.selected_layouts layout = s.selected_layouts.length :=
      (std_find_eq_length_iff _ _).2 hmem
    simp [on_remove_layout, hf]
  · intro op
    rcases op.run_cases s with ⟨hl, hc⟩ | ⟨hl, value, hc⟩
    · exact ⟨⟨fun h => absurd hc h, fun h => absurd hl h⟩, fun h => absurd hl h⟩
    · refine ⟨⟨fun _ => hl, fun _ => ?_⟩, fun _ => ⟨value, hc⟩⟩
      rw [hc]
      intro h
      have := congrArg List.length h
      simp at this

/-- Witness for C24: with `de` selected, adding row 2 (`de`) issues nothing,
and removing `fr` changes nothing. -/
theorem flush_iff_list_changes_witness :
    ((on_layout_selected (some 2)
        { State.init with selected_layouts := ["de".toList] }).selected_layouts =
        ["de".toList] ∧
      commands (on_layout_selected (some 2)
        { State.init with selected_layouts := ["de".toList] }).trace = commands []) ∧
    on_remove_layout "fr".toList { State.init with selected_layouts := ["de".toList] } =
      { State.init with selected_layouts := ["de".toList] } :=
  ⟨(flush_iff_list_changes { State.init with selected_layouts := ["de".toList] }).1 2
      (LayoutInfo.mk "de".toList "German".toList) (by decide) (by decide),
   (flush_iff_list_changes { State.init with selected_layouts := ["de".toList] }).2.1
      "fr".toList (by decide)⟩

/-- C25: the name `apply_layout_switch_keybind` uses for index `i` is the name
`load_keybind_state` gives to exactly one of the bitmasks 1, 4, 8, 9, 12, 64,
65, 72 (the one of `spec_index_modmask`), and the string apply tracks for
index `i` and key `k` is the string the loader tracks when it has parsed that
bitmask and the key `k`. -/
theorem modifier_names_correspond (i : Nat) (M : Str) (hM : modifiers[i]? = some M) :
    (∃! m : Int, m ∈ [1, 4, 8, 9, 12, 64, 65, 72] ∧ mod_str_of m = M) ∧
    (∀ m : Int, mod_str_of m = M → spec_index_modmask[i]? = some m) ∧
    (∀ (m : Int) (popen : Popen) (s t : State) (k : Str), mod_str_of m = M → k ≠ [] →
        s.selected_modifier_index = (i : Int) →
        load_keybind_loop (getlines '\n' (exec_output popen binds_query)) (0, []) =
          Except.ok (m, k) →
        load_keybind_state popen t =
          Except.ok { t with current_layout_switch_bind :=
            (apply_layout_switch_keybind (some (some k)) s).current_layout_switch_bind }) := by
  have hlt : i < 8 := by
    by_contra hge
    have hnone : modifiers[i]? = none := List.getElem?_eq_none (by simpa [modifiers] using hge)
    rw [hnone] at hM
    cases hM
  have hMne : M ≠ [] := by
    have hall : ∀ x ∈ modifiers, x ≠ [] := by decide
    exact hall M (List.getElem?_mem hM)
  have hget : modifiers.getD i [] = M := by
    rw [List.getD_eq_getElem?_getD, hM]; rfl
  have hex_all : ∀ j : Nat, j < 8 → ∃ m ∈ ([1, 4, 8, 9, 12, 64, 65, 72] : List Int),
      spec_index_modmask[j]? = some m ∧ mod_str_of m = modifiers.getD j [] := by decide
  have huniq_all : ∀ j : Nat, j < 8 → ∀ m ∈ ([1, 4, 8, 9, 12, 64, 65, 72] : List Int),
      mod_str_of m = modifiers.getD j [] → spec_index_modmask[j]? = some m := by decide
  have huniq : ∀ m : Int, mod_str_of m = M → spec_index_modmask[i]? = some m := by
    intro m hm
    have hmem : m ∈ ([1, 4, 8, 9, 12, 64, 65, 72] : List Int) := by
      by_contra hn
      exact hMne (by rw [← hm]; exact mod_str_of_unknown m hn)
    exact huniq_all i hlt m hmem (by rw [hm, hget])
  have hex : ∃ m : Int, spec_index_modmask[i]? = some m ∧
      m ∈ ([1, 4, 8, 9, 12, 64, 65, 72] : List Int) ∧ mod_str_of m = M := by
    obtain ⟨m, hmem, hidx, hname⟩ := hex_all i hlt
    exact ⟨m, hidx, hmem, by rw [hname, hget]⟩
  obtain ⟨m0, hm0, hmem0, hname0⟩ := hex
  refine ⟨⟨m0, ⟨hmem0, hname0⟩, ?_⟩, huniq, ?_⟩
  · intro m ⟨_, hm⟩
    have h1 := huniq m hm
    rw [hm0] at h1
    exact (Option.some.inj h1).symm
  · intro m popen s t k hm hk hi hparse
    rw [load_keybind_state_of_parse popen t m k hparse, hm,
      apply_layout_switch_keybind_of_valid s k i M hk hi hM]
    simp only [ne_eq, hMne, not_false_eq_true, hk, and_self, if_true]

/-- Witness for C25: index 7 is `SUPER_ALT`, the name of bitmask 72 only. -/
theorem modifier_names_correspond_witness :
    ∃! m : Int, m ∈ [1, 4, 8, 9, 12, 64, 65, 72] ∧ mod_str_of m = "SUPER_ALT".toList :=
  (modifier_names_correspond 7 "SUPER_ALT".toList (by decide)).1

set_option maxRecDepth 100000 in
/-- C30: the codes of `all_layouts` are pairwise distinct; so for every entry
the scan of `get_layout_name` on its code returns the name of that entry,
which is the only entry with the code, and two rows of the add dialog with
the same code are the same row. -/
theorem all_layouts_codes_distinct :
    (all_layouts.map LayoutInfo.code).Nodup ∧
    (∀ e ∈ all_layouts, get_layout_name e.code = e.name ∧
        ∀ e' ∈ all_layouts, e'.code = e.code → e' = e) ∧
    (∀ (i j : Nat) (e1 e2 : LayoutInfo), all_layouts[i]? = some e1 →
        all_layouts[j]? = some e2 → e1.code = e2.code → i = j) := by
  have hnodup : (all_layouts.map LayoutInfo.code).Nodup := by decide
  have hname : ∀ e ∈ all_layouts, get_layout_name e.code = e.name := by decide
  refine ⟨hnodup, ?_, ?_⟩
  · intro e he
    exact ⟨hname e he, fun e' he' hcode => List.inj_on_of_nodup_map hnodup he' he hcode⟩
  · intro i j e1 e2 h1 h2 hcode
    have hi : (all_layouts.map LayoutInfo.code)[i]? = some e1.code := by
      rw [List.getElem?_map, h1]; rfl
    have hj : (all_layouts.map LayoutInfo.code)[j]? = some e2.code := by
      rw [List.getElem?_map, h2]; rfl
    have hlt : i < (all_layouts.map LayoutInfo.code).length := by
      by_contra hge
      rw [List.getElem?_eq_none (by omega)] at hi
      cases hi
    exact List.getElem?_inj hlt hnodup (by rw [hi, hj, hcode])

set_option maxRecDepth 100000 in
/-- Witness for C30: the entry `de` of the table; the scan on `de` returns
`German`. -/
theorem all_layouts_codes_distinct_witness :
    get_layout_name "de".toList = "German".toList :=
  (all_layouts_codes_distinct.2.1 (LayoutInfo.mk "de".toList "German".toList)
    (by decide)).1

/-! ## Theorems on reading back what the handlers write -/

theorem get_int_option_of_rejected (popen : Popen) (option : Str) (d : Int)
    (h : get_hyprland_option popen option = [] ∨
      stoi (get_hyprland_option popen option) = none) :
    get_int_option popen option d = d := by
  dsimp only [get_int_option]
  generalize get_hyprland_option popen option = v at h
  rcases h with h | h
  · simp [h]
  · simp [h]

/-- C29: `on_float_switch_override_changed` writes `2` for an active switch
and `0` for an inactive one, and the test `get_int_option(...) == 2` of the
page constructor gives the switch state back from that value; the value `1`
and an empty or unparsable value (default 1) are read as off. -/
theorem float_switch_read_back (popen : Popen) (s : State) (b : Bool) :
    on_float_switch_override_changed b s =
      s.emit (Effect.system ("hyprctl keyword input:float_switch_override_focus ".toList ++
        (if b then "2".toList else "0".toList))) ∧
    (get_hyprland_option popen "input:float_switch_override_focus".toList =
        (if b then "2".toList else "0".toList) →
      float_switch_override_active popen = b) ∧
    (get_hyprland_option popen "input:float_switch_override_focus".toList = "1".toList →
      float_switch_override_active popen = false) ∧
    (get_hyprland_option popen "input:float_switch_override_focus".toList = [] ∨
        stoi (get_hyprland_option popen "input:float_switch_override_focus".toList) = none →
      float_switch_override_active popen = false) := by
  refine ⟨rfl, ?_, ?_, ?_⟩
  · intro h
    unfold float_switch_override_active get_int_option
    rw [h]
    cases b <;> decide
  · intro h
    unfold float_switch_override_active get_int_option
    rw [h]
    decide
  · intro h
    unfold float_switch_override_active
    rw [get_int_option_of_rejected popen _ 1 h]
    decide

/-- Witness for C29: the value `2`, as the compositor reports it after the
switch was turned on, is read as on. -/
theorem float_switch_read_back_witness :
    float_switch_override_active (fun _ => some "int: 2\nset: true\n".toList) = true :=
  (float_switch_read_back (fun _ => some "int: 2\nset: true\n".toList) State.init true).2.1
    (by decide)

/-! ## Theorems on the numeric prefix -/

theorem isspace_of_isDigit (c : Char) (h : c.isDigit = true) : isspace c = false := by
  by_contra hs
  have hs' : isspace c = true := by simpa using hs
  simp only [isspace, Bool.or_eq_true, beq_iff_eq] at hs'
  rcases hs' with ((((rfl | rfl) | rfl) | rfl) | rfl) | rfl <;> revert h <;> decide

theorem takeWhile_isDigit_append (ds t : Str) (hdig : ∀ c ∈ ds, c.isDigit = true)
    (ht : ∀ c : Char, t.head? = some c → c.isDigit = false) :
    (ds ++ t).takeWhile Char.isDigit = ds := by
  induction ds with
  | nil =>
    cases t with
    | nil => rfl
    | cons c t =>
      have hc : c.isDigit = false := ht c rfl
      simp [List.takeWhile_cons, hc]
  | cons a ds ih =>
    have ha : a.isDigit = true := hdig a (by simp)
    rw [List.cons_append, List.takeWhile_cons, ha]
    simp only [if_true, List.cons.injEq, true_and]
    exact ih (fun c hc => hdig c (by simp [hc]))

/-- The model of `std::stoi` on digits followed by text that does not start
with a digit: the value of the digits when it fits an `int`. -/
theorem stoi_digits (ds t : Str) (hds : ds ≠ []) (hdig : ∀ c ∈ ds, c.isDigit = true)
    (ht : ∀ c : Char, t.head? = some c → c.isDigit = false) :
    stoi (ds ++ t) =
      if -2147483648 ≤ (digits_value ds : Int) ∧ (digits_value ds : Int) ≤ 2147483647 then
        some (digits_value ds : Int)
      else none := by
  obtain ⟨c, cs, rfl⟩ := List.exists_cons_of_ne_nil hds
  have hc : c.isDigit = true := hdig c (by simp)
  have hsp : isspace c = false := isspace_of_isDigit c hc
  have hminus : c ≠ '-' := by rintro rfl; revert hc; decide
  have hplus : c ≠ '+' := by rintro rfl; revert hc; decide
  have htake := takeWhile_isDigit_append (c :: cs) t hdig ht
  have hdrop : (c :: cs ++ t).dropWhile isspace = c :: cs ++ t := by
    rw [List.cons_append, List.dropWhile_cons, hsp]; rfl
  dsimp only [stoi]
  rw [hdrop]
  have hmatch : (match c :: cs ++ t with
      | '-' :: r => (true, r)
      | '+' :: r => (false, r)
      | _ => (false, c :: cs ++ t)) = (false, c :: cs ++ t) := by
    split
    · next r heq => exact absurd (List.cons.inj heq).1 hminus
    · next r heq => exact absurd (List.cons.inj heq).1 hplus
    · rfl
  rw [hmatch]
  simp only [htake]
  simp

/-- The model of `std::stoi` on a sign followed by digits and then text that
does not start with a digit. -/
theorem stoi_signed (neg : Bool) (ds t : Str) (hds : ds ≠ [])
    (hdig : ∀ c ∈ ds, c.isDigit = true)
    (ht : ∀ c : Char, t.head? = some c → c.isDigit = false) :
    stoi ((if neg then '-' else '+') :: (ds ++ t)) =
      if -2147483648 ≤ (if neg then -(digits_value ds : Int) else (digits_value ds : Int)) ∧
          (if neg then -(digits_value ds : Int) else (digits_value ds : Int)) ≤ 2147483647 then
        some (if neg then -(digits_value ds : Int) else (digits_value ds : Int))
      else none := by
  have htake := takeWhile_isDigit_append ds t hdig ht
  cases neg with
  | true =>
    have hdrop : ('-' :: (ds ++ t)).dropWhile isspace = '-' :: (ds ++ t) := by
      rw [List.dropWhile_cons]; rfl
    dsimp only [stoi]
    simp only [if_true, hdrop, htake, hds, if_false]
  | false =>
    have hdrop : ('+' :: (ds ++ t)).dropWhile isspace = '+' :: (ds ++ t) := by
      rw [List.dropWhile_cons]; rfl
    dsimp only [stoi]
    simp only [Bool.false_eq_true, if_false, hdrop, htake, hds]


/-- C27: when the value string is an optional sign, then decimal digits of a
number `n` within the range of a 32-bit `int`, then any text that does not
start with a digit, `get_int_option` returns `n` and not the default. -/
theorem get_int_option_numeric_prefix (popen : Popen) (option : Str) (def_val : Int)
    (sign ds t : Str) (hsign : sign = [] ∨ sign = ['-'] ∨ sign = ['+'])
    (hds : ds ≠ []) (hdig : ∀ c ∈ ds, c.isDigit = true)
    (ht : ∀ c : Char, t.head? = some c → c.isDigit = false)
    (hrange : -2147483648 ≤
        (if sign = ['-'] then -(digits_value ds : Int) else (digits_value ds : Int)) ∧
      (if sign = ['-'] then -(digits_value ds : Int) else (digits_value ds : Int)) ≤ 2147483647)
    (hval : get_hyprland_option popen option = sign ++ ds ++ t) :
    get_int_option popen option def_val =
      if sign = ['-'] then -(digits_value ds : Int) else (digits_value ds : Int) := by
  have hne : sign ++ ds ++ t ≠ [] := by
    intro h
    have h1 := List.append_eq_nil.mp h
    exact hds (List.append_eq_nil.mp h1.1).2
  have hs : stoi (sign ++ ds ++ t) =
      some (if sign = ['-'] then -(digits_value ds : Int) else (digits_value ds : Int)) := by
    rcases hsign with rfl | rfl | rfl
    · have h0 := stoi_digits ds t hds hdig ht
      simp only [List.nil_append, List.nil_eq, List.cons_ne_self, reduceCtorEq, if_false]
        at hrange ⊢
      rw [h0, if_pos hrange]
    · have h0 := stoi_signed true ds t hds hdig ht
      simp only [if_true] at h0 hrange ⊢
      rw [List.append_assoc, List.singleton_append, h0, if_pos hrange]
    · have h0 := stoi_signed false ds t hds hdig ht
      have hsg : ¬ (['+'] : Str) = ['-'] := by decide
      simp only [Bool.false_eq_true, if_false] at h0
      simp only [hsg, if_false] at hrange ⊢
      rw [List.append_assoc, List.singleton_append, h0, if_pos hrange]
  dsimp only [get_int_option]
  rw [hval]
  simp only [hne, if_false, hs]

/-- Witness for C27: the value `12abc` is read as 12 although the default is
600. -/
theorem get_int_option_numeric_prefix_witness :
    get_int_option (fun _ => some "int: 12abc\nset: true\n".toList)
      "input:repeat_delay".toList 600 =
      if ([] : Str) = ['-'] then -(digits_value "12".toList : Int)
      else (digits_value "12".toList : Int) :=
  get_int_option_numeric_prefix (fun _ => some "int: 12abc\nset: true\n".toList)
    "input:repeat_delay".toList 600 [] "12".toList "abc".toList (Or.inl rfl) (by decide)
    (by decide) (by decide) (by decide) (by decide)

/-! ## Theorems on outputs with several binding blocks -/

theorem last_line_with_sat (p : Str → Bool) (lines : List Str) (line : Str)
    (h : last_line_with p lines = some line) : p line = true := by
  induction lines with
  | nil => cases h
  | cons l rest ih =>
    rw [last_line_with] at h
    cases hrest : last_line_with p rest with
    | some later =>
      rw [hrest] at h
      cases h
      exact ih hrest
    | none =>
      rw [hrest] at h
      by_cases hp : p l = true
      · simp only [hp, if_true] at h
        cases h
        exact hp
      · simp only [hp] at h
        cases h

/-- One round of the loop of `load_keybind_state`, when it does not throw:
the modmask is replaced when the line has one that parses, the key is
replaced when the line has `key:`. -/
theorem load_keybind_line_ok (m0 : Int) (k0 : Str) (line : Str) (m1 : Int) (k1 : Str)
    (h : load_keybind_line (m0, k0) line = Except.ok (m1, k1)) :
    m1 = (modmask_of_line line).getD m0 ∧
    k1 = if has_key line then key_of_line line else k0 := by
  have hm : (match find_str line "modmask:".toList with
      | some pos =>
        match substr line (pos + 9) with
        | Except.ok t =>
          match stoi t with
          | some v => v
          | none => m0
        | Except.error _ => m0
      | none => m0) = (modmask_of_line line).getD m0 := by
    unfold modmask_of_line
    cases find_str line "modmask:".toList with
    | none => rfl
    | some pos =>
      dsimp only
      cases substr line (pos + 9) with
      | error e => rfl
      | ok t =>
        dsimp only
        cases stoi t <;> rfl
  dsimp only [load_keybind_line] at h
  rw [hm] at h
  unfold has_key key_of_line
  cases hk : find_str line "key:".toList with
  | none =>
    rw [hk] at h
    simp only [Except.ok.injEq, Prod.mk.injEq] at h
    exact ⟨h.1.symm, by simpa using h.2.symm⟩
  | some pos =>
    rw [hk] at h
    unfold substr at h
    by_cases hpos : pos + 5 > line.length
    · simp only [hpos, if_true] at h
      cases h
    · simp only [hpos, if_false, Except.ok.injEq, Prod.mk.injEq] at h
      exact ⟨h.1.symm, by simpa using h.2.symm⟩

/-- What the loop of `load_keybind_state` leaves when it does not throw: the
number of the last `modmask:` line that parses and the key of the last `key:`
line, or the initial values when there is no such line. -/
theorem load_keybind_loop_last (lines : List Str) (m0 : Int) (k0 : Str) (m : Int) (k : Str)
    (h : load_keybind_loop lines (m0, k0) = Except.ok (m, k)) :
    m = (match last_line_with parses_modmask lines with
         | some line => (modmask_of_line line).getD m0
         | none => m0) ∧
    k = (match last_line_with has_key lines with
         | some line => key_of_line line
         | none => k0) := by
  induction lines generalizing m0 k0 with
  | nil =>
    simp only [load_keybind_loop, Except.ok.injEq, Prod.mk.injEq] at h
    exact ⟨h.1.symm, h.2.symm⟩
  | cons line rest ih =>
    rw [load_keybind_loop] at h
    cases hline : load_keybind_line (m0, k0) line with
    | error e =>
      rw [hline] at h
      cases h
    | ok locals =>
      obtain ⟨m1, k1⟩ := locals
      rw [hline] at h
      obtain ⟨hm1, hk1⟩ := load_keybind_line_ok m0 k0 line m1 k1 hline
      obtain ⟨hm, hk⟩ := ih m1 k1 h
      constructor
      · rw [last_line_with]
        cases hrest : last_line_with parses_modmask rest with
        | some later =>
          rw [hrest] at hm
          have hsat := last_line_with_sat parses_modmask rest later hrest
          unfold parses_modmask at hsat
          obtain ⟨v, hv⟩ := Option.isSome_iff_exists.mp hsat
          simp only [hv, Option.getD_some] at hm ⊢
          exact hm
        | none =>
          rw [hrest] at hm
          by_cases hp : parses_modmask line = true
          · simp only [hp, if_true]
            rw [hm, hm1]
          · simp only [hp]
            have hnone : modmask_of_line line = none := by
              unfold parses_modmask at hp
              simpa using hp
            rw [hm, hm1, hnone]
            rfl
      · rw [last_line_with]
        cases hrest : last_line_with has_key rest with
        | some later =>
          rw [hrest] at hk
          exact hk
        | none =>
          rw [hrest] at hk
          by_cases hp : has_key line = true
          · simp only [hp, if_true] at hk1 ⊢
            rw [hk, hk1]
          · simp only [hp] at hk1 ⊢
            rw [hk, hk1]
            rfl

theorem load_keybind_state_ok_parse (popen : Popen) (s s1 : State)
    (h : load_keybind_state popen s = Except.ok s1) :
    ∃ (m : Int) (k : Str),
      load_keybind_loop (getlines '\n' (exec_output popen binds_query)) (0, []) =
        Except.ok (m, k) := by
  cases hloop : load_keybind_loop (getlines '\n' (exec_output popen binds_query)) (0, []) with
  | ok locals => exact ⟨locals.1, locals.2, rfl⟩
  | error e =>
    exfalso
    unfold binds_query at hloop
    dsimp only [load_keybind_state] at h
    by_cases hout : exec_output popen
        "hyprctl binds | grep -B 4 \'arg: hyprctl switchxkblayout\'".toList = []
    · rw [hout] at hloop
      cases hloop
    · simp only [hout, if_false, hloop] at h
      cases h

/-- C26, as stated, fails: two outputs with the same last `modmask:` line
(`modmask: x`, which does not parse) and the same last `key:` line are loaded
differently, because the number of an earlier `modmask:` line stays in use.
And two outputs with the same last parsing `modmask:` line and the same last
`key:` line differ when one of them has an earlier line that ends right after
`key:`, on which the function throws. -/
theorem load_keybind_state_not_last_modmask_line :
    (¬ ∀ (popen1 popen2 : Popen) (s : State),
        last_line_with has_modmask (getlines '\n' (exec_output popen1 binds_query)) =
          last_line_with has_modmask (getlines '\n' (exec_output popen2 binds_query)) →
        last_line_with has_key (getlines '\n' (exec_output popen1 binds_query)) =
          last_line_with has_key (getlines '\n' (exec_output popen2 binds_query)) →
        load_keybind_state popen1 s = load_keybind_state popen2 s) ∧
    (¬ ∀ (popen1 popen2 : Popen) (s : State),
        last_line_with parses_modmask (getlines '\n' (exec_output popen1 binds_query)) =
          last_line_with parses_modmask (getlines '\n' (exec_output popen2 binds_query)) →
        last_line_with has_key (getlines '\n' (exec_output popen1 binds_query)) =
          last_line_with has_key (getlines '\n' (exec_output popen2 binds_query)) →
        load_keybind_state popen1 s = load_keybind_state popen2 s) := by
  constructor
  · intro h
    have h1 := h
      (fun _ => some "\tmodmask: 64\n\tkey: grave\n--\n\tmodmask: x\n\tkey: space\n".toList)
      (fun _ => some "\tmodmask: 8\n\tkey: grave\n--\n\tmodmask: x\n\tkey: space\n".toList)
      State.init (by decide) (by decide)
    revert h1
    decide
  · intro h
    have h1 := h
      (fun _ => some "\tkey:\n--\n\tmodmask: 64\n\tkey: space\n".toList)
      (fun _ => some "\tmodmask: 64\n\tkey: space\n".toList)
      State.init (by decide) (by decide)
    revert h1
    decide

/-- C26, amended: `load_keybind_state` uses the last `modmask:` line whose
number parses and the last `key:` line of the whole output, independently of
each other: on two outputs that agree on those two lines, and on which it
completes, it returns the same state. -/
theorem load_keybind_state_last_lines (popen1 popen2 : Popen) (s s1 s2 : State)
    (h1 : load_keybind_state popen1 s = Except.ok s1)
    (h2 : load_keybind_state popen2 s = Except.ok s2)
    (hmod : last_line_with parses_modmask (getlines '\n' (exec_output popen1 binds_query)) =
      last_line_with parses_modmask (getlines '\n' (exec_output popen2 binds_query)))
    (hkey : last_line_with has_key (getlines '\n' (exec_output popen1 binds_query)) =
      last_line_with has_key (getlines '\n' (exec_output popen2 binds_query))) :
    s1 = s2 := by
  obtain ⟨m1, k1, hp1⟩ := load_keybind_state_ok_parse popen1 s s1 h1
  obtain ⟨m2, k2, hp2⟩ := load_keybind_state_ok_parse popen2 s s2 h2
  obtain ⟨hm1, hk1⟩ := load_keybind_loop_last _ 0 [] m1 k1 hp1
  obtain ⟨hm2, hk2⟩ := load_keybind_loop_last _ 0 [] m2 k2 hp2
  rw [hmod] at hm1
  rw [hkey] at hk1
  have hm : m1 = m2 := hm1.trans hm2.symm
  have hk : k1 = k2 := hk1.trans hk2.symm
  rw [load_keybind_state_of_parse popen1 s m1 k1 hp1] at h1
  rw [load_keybind_state_of_parse popen2 s m2 k2 hp2] at h2
  rw [hm, hk] at h1
  exact Except.ok.inj (h1.symm.trans h2)

/-- Witness for C26 amended: two outputs whose last parsing `modmask:` line
is `modmask: 64` and whose last `key:` line is `key: space` are both loaded as
`SUPER, space`, whatever else they hold. -/
theorem load_keybind_state_last_lines_witness :
    load_keybind_state
      (fun _ => some "\tmodmask: 64\n\tkey: grave\n--\n\tmodmask: x\n\tkey: space\n".toList)
      State.init =
      Except.ok { State.init with current_layout_switch_bind := "SUPER, space".toList } ∧
    load_keybind_state
      (fun _ => some "\tmodmask: 8\n--\n\tmodmask: 64\n\tkey: space\n".toList)
      State.init =
      Except.ok { State.init with current_layout_switch_bind := "SUPER, space".toList } ∧
    ({ State.init with current_layout_switch_bind := "SUPER, space".toList } : State) =
      { State.init with current_layout_switch_bind := "SUPER, space".toList } :=
  ⟨by decide, by decide,
   load_keybind_state_last_lines
    (fun _ => some "\tmodmask: 64\n\tkey: grave\n--\n\tmodmask: x\n\tkey: space\n".toList)
    (fun _ => some "\tmodmask: 8\n--\n\tmodmask: 64\n\tkey: space\n".toList)
    State.init _ _ (by decide) (by decide) (by decide) (by decide)⟩

end HyprControl
